import Mathlib

/-!
# BentoPose BVH exporter — a shallow embedding with correctness proofs

This file embeds the BVH-export core of the BentoPose tool
(`src/js/main.js`: `exportToBVH`, `buildBVHHierarchy`, `buildBVHMotion`)
into Lean and proves properties of the exported document.

Modelling decisions:
* A scene node is a finite inductive tree (`BNode`); the scene graph's
  acyclicity invariant is therefore structural.  Each bone records the
  status of its `parent` link (`ParentRef`), which is all the exporter
  ever reads from it.
* JavaScript numbers appearing in the document are produced by
  `Number.prototype.toFixed(6)`.  Coordinates are modelled in exact
  micro-units (an `Int` counting multiples of 10⁻⁶), on which `toFixed(6)`
  is exact fixed-point formatting; float rounding is outside the model.
* The per-bone rotation is stored already converted to XYZ Euler angles in
  degrees (`rotDeg`): the conversion
  `new THREE.Euler().setFromQuaternion(bone.quaternion, 'XYZ')` followed by
  `THREE.MathUtils.radToDeg` is real-valued trigonometry; the serializer
  only consumes its three resulting numbers, which the model takes as
  given pose data.
* `exportToBVH` returns `Option String`: `none` models the early return
  that produces no document and triggers no download.
-/

set_option maxRecDepth 100000
set_option maxHeartbeats 1000000

/-! ## Character and string utilities -/

/-- The whitespace test used by `String.prototype.trim` and by token
splitting; the exported documents only ever contain spaces and newlines. -/
def isWsChar (c : Char) : Bool :=
  c == ' ' || c == '\n' || c == '\t' || c == '\r'

/-- Decimal digit characters. -/
def isDigitCh (c : Char) : Bool :=
  c == '0' || c == '1' || c == '2' || c == '3' || c == '4' ||
  c == '5' || c == '6' || c == '7' || c == '8' || c == '9'

/-- Characters that can appear in a `toFixed(6)` rendering: digits, the
minus sign, the decimal point. -/
def okNumCh (c : Char) : Bool :=
  isDigitCh c || c == '-' || c == '.'

/-- The decimal digit character for `n % 10`-style arguments. -/
def digitCh (n : Nat) : Char :=
  match n with
  | 0 => '0' | 1 => '1' | 2 => '2' | 3 => '3' | 4 => '4'
  | 5 => '5' | 6 => '6' | 7 => '7' | 8 => '8' | _ => '9'

/-- Base-10 digit list of a natural number, with an explicit fuel argument
(`fuel` is always called with at least `n + 1`) so the recursion is
structural and kernel-evaluable. -/
def natDigitsAux : Nat → Nat → List Char
  | 0, _ => []
  | fuel + 1, n => if n < 10 then [digitCh n] else natDigitsAux fuel (n / 10) ++ [digitCh (n % 10)]

/-- Base-10 rendering of a natural number, as JavaScript renders the
integral part of a number. -/
def natToStr (n : Nat) : String :=
  ⟨natDigitsAux (n + 1) n⟩

/-- Zero-padded six-digit rendering of `n < 10^6`: the fractional part
produced by `toFixed(6)`. -/
def pad6 (n : Nat) : String :=
  ⟨[digitCh (n / 100000 % 10), digitCh (n / 10000 % 10), digitCh (n / 1000 % 10),
    digitCh (n / 100 % 10), digitCh (n / 10 % 10), digitCh (n % 10)]⟩

/-- `v.toFixed(6)` for a coordinate `v` measured in micro-units:
sign, integral part, point, exactly six fractional digits. -/
def toFixed6 (v : Int) : String :=
  (if v < 0 then "-" else "") ++ natToStr (v.natAbs / 1000000) ++ "." ++ pad6 (v.natAbs % 1000000)

/-- `s.repeat(n)` of JavaScript. -/
def strRepeat (s : String) : Nat → String
  | 0 => ""
  | n + 1 => s ++ strRepeat s n

/-- Does the list start with the character `t`? -/
def headIs (t : Char) : List Char → Bool
  | [] => false
  | c :: _ => c == t

/-- Is `p` a prefix of `l`? -/
def isPrefixL : List Char → List Char → Bool
  | [], _ => true
  | _ :: _, [] => false
  | p :: ps, c :: cs => p == c && isPrefixL ps cs

/-- Replace the first occurrence of `pat` (used only with non-empty
patterns) by `rep`, as `String.prototype.replace` does with a string
pattern. -/
def replaceFirstL (pat rep : List Char) : List Char → List Char
  | [] => []
  | c :: cs =>
    if isPrefixL pat (c :: cs) then rep ++ (c :: cs).drop pat.length
    else c :: replaceFirstL pat rep cs

/-- `s.replace(pat, rep)` of JavaScript for a string pattern: first
occurrence only. -/
def jsReplaceFirst (s pat rep : String) : String :=
  ⟨replaceFirstL pat.data rep.data s.data⟩

/-- `s.trim()` of JavaScript: whitespace removed from both ends. -/
def jsTrim (s : String) : String :=
  ⟨((s.data.dropWhile isWsChar).reverse.dropWhile isWsChar).reverse⟩

/-- The lines of a character list, splitting at every newline (like
`splitOn "\n"`: a trailing newline yields a final empty line). -/
def linesOfL : List Char → List (List Char)
  | [] => [[]]
  | c :: cs =>
    if c = '\n' then [] :: linesOfL cs
    else
      match linesOfL cs with
      | [] => [[c]]
      | l :: ls => (c :: l) :: ls

/-- The lines of a string. -/
def linesOfS (s : String) : List String :=
  (linesOfL s.data).map (fun l => ⟨l⟩)

/-- Render a list of lines back into newline-terminated text. -/
def renderLines : List String → String
  | [] => ""
  | s :: ss => s ++ "\n" ++ renderLines ss

/-- `true` when the string contains no newline. -/
def noNl (s : String) : Bool :=
  s.data.all (fun c => !(c == '\n'))

/-- Does the character list contain a newline immediately followed by
`'J'`?  The rewrite pattern `"HIERARCHY\nJOINT"` can only occur inside a
string containing such a pair. -/
def hasNJ : List Char → Bool
  | [] => false
  | c :: cs => (c == '\n' && headIs 'J' cs) || hasNJ cs

/-- Leading spaces removed (the indentation of a document line). -/
def stripSpaces (s : String) : String :=
  ⟨s.data.dropWhile (fun c => c == ' ')⟩

/-- `maybeConsTok cur toks` finishes the token run `cur` if non-empty. -/
def maybeConsTok (cur : List Char) (toks : List (List Char)) : List (List Char) :=
  if cur = [] then toks else cur :: toks

/-- Helper for whitespace tokenization: returns the maximal non-whitespace
run at the head together with the tokens of the remainder. -/
def tokAux : List Char → List Char × List (List Char)
  | [] => ([], [])
  | c :: cs =>
    let p := tokAux cs
    if isWsChar c then ([], maybeConsTok p.1 p.2) else (c :: p.1, p.2)

/-- The maximal non-whitespace runs of a character list. -/
def tokensOfL (l : List Char) : List (List Char) :=
  maybeConsTok (tokAux l).1 (tokAux l).2

/-- The whitespace-separated tokens of a string. -/
def wsTokens (s : String) : List String :=
  (tokensOfL s.data).map (fun l => ⟨l⟩)

/-- `true` when the token has a decimal point followed by exactly six
digits (fixed-point with six decimals). -/
def sixDecimalsB (t : String) : Bool :=
  match t.data.dropWhile (fun c => !(c == '.')) with
  | [] => false
  | _ :: frac => frac.length == 6 && frac.all isDigitCh

/-- The numeric values of an `OFFSET` document line (tokens after the
keyword), empty for any other line. -/
def offsetVals (ln : String) : List String :=
  if isPrefixL "OFFSET ".data (stripSpaces ln).data then
    wsTokens ⟨(stripSpaces ln).data.drop 7⟩
  else []

/-- The number of lines whose content (indentation removed) is exactly
`End Site`. -/
def endSiteLineCount (ls : List String) : Nat :=
  (ls.filter (fun ln => decide (stripSpaces ln = "End Site"))).length

/-- The number of joint-header lines (`JOINT …` or `ROOT …` after
indentation removal). -/
def countJointLines (ls : List String) : Nat :=
  (ls.filter (fun ln =>
    isPrefixL "JOINT ".data (stripSpaces ln).data ||
    isPrefixL "ROOT ".data (stripSpaces ln).data)).length

/-! ## Data model -/

/-- A local-space vector, components in micro-units (multiples of 10⁻⁶). -/
structure Vec3 where
  x : Int
  y : Int
  z : Int
deriving Repr, DecidableEq

/-- What `bone.parent` looks like to the exporter: absent (`null`),
present but not a bone (`nonBone`, e.g. the scene root), or itself a
bone (`boneParent`). -/
inductive ParentRef where
  | null
  | nonBone
  | boneParent
deriving Repr, DecidableEq

/-- A scene-graph node: a bone (with id, optional name, parent status,
local position, local rotation as XYZ Euler degrees, and ordered
children), or a non-bone node (whose own data the exporter never reads). -/
inductive BNode : Type where
  | bone (id : Nat) (name : Option String) (parent : ParentRef)
      (position : Vec3) (rotDeg : Vec3) (children : List BNode) : BNode
  | other : BNode

instance : Inhabited BNode := ⟨.other⟩

/-- `node.isBone` of three.js. -/
def BNode.isBone : BNode → Bool
  | .bone .. => true
  | .other => false

/-- `bone.id` (non-bone nodes never reach the accessors). -/
def BNode.id : BNode → Nat
  | .bone i _ _ _ _ _ => i
  | .other => 0

/-- `bone.parent` status. -/
def BNode.parent : BNode → ParentRef
  | .bone _ _ p _ _ _ => p
  | .other => .null

/-- `bone.position`. -/
def BNode.position : BNode → Vec3
  | .bone _ _ _ pos _ _ => pos
  | .other => ⟨0, 0, 0⟩

/-- `bone.quaternion` converted to XYZ Euler angles in degrees. -/
def BNode.rotDeg : BNode → Vec3
  | .bone _ _ _ _ r _ => r
  | .other => ⟨0, 0, 0⟩

/-- `bone.children`. -/
def BNode.children : BNode → List BNode
  | .bone _ _ _ _ _ cs => cs
  | .other => []

/-! ## The exporter, translated from `src/js/main.js` -/

/-- JavaScript `name || fallback` for a string property: the fallback is
taken when the property is absent or the empty string (both falsy). -/
def jsNameOr (name : Option String) (fallback : String) : String :=
  match name with
  | some s => if s = "" then fallback else s
  | none => fallback

mutual

/-- `buildBVHHierarchy(bone, level)` of `main.js`: emit the joint header,
offset and channels lines, recurse into bone children (or emit an
`End Site` block at a leaf), close the brace, and apply the
`"HIERARCHY\nJOINT" → "HIERARCHY\nROOT"` first-occurrence rewrite to the
resulting string — exactly as the source does, inside every call. -/
def buildBVHHierarchy : BNode → Nat → String
  | .other, _ => ""
  | .bone id name _ position _ children, level =>
    let indent := strRepeat "  " level
    let str1 := indent ++ "JOINT " ++ jsNameOr name ("Bone_" ++ natToStr id) ++ "\n"
      ++ indent ++ "\x7b" ++ "\n"
      ++ indent ++ "  OFFSET " ++ toFixed6 position.x ++ " " ++ toFixed6 position.y
        ++ " " ++ toFixed6 position.z ++ "\n"
      ++ indent ++ "  CHANNELS 6 Xposition Yposition Zposition Xrotation Yrotation Zrotation" ++ "\n"
    let str2 := str1 ++
      (if children.any BNode.isBone then
        buildChildren children (level + 1)
      else
        indent ++ "  End Site" ++ "\n" ++ indent ++ "  \x7b" ++ "\n"
          ++ indent ++ "    OFFSET 0.0 0.0 0.0" ++ "\n" ++ indent ++ "  \x7d" ++ "\n")
    jsReplaceFirst (str2 ++ indent ++ "\x7d" ++ "\n") "HIERARCHY\nJOINT" "HIERARCHY\nROOT"

/-- The source's `children.filter(child => child.isBone).forEach(...)`
loop: non-bone children contribute nothing and are not recursed into. -/
def buildChildren : List BNode → Nat → String
  | [], _ => ""
  | c :: cs, level =>
    (if c.isBone then buildBVHHierarchy c level else "") ++ buildChildren cs level

end

/-- Left-to-right concatenation of strings, mirroring the `motion += …`
accumulation of `buildBVHMotion`. -/
def joinStrs : List String → String
  | [] => ""
  | s :: ss => s ++ joinStrs ss

/-- One bone's contribution to the motion line in `buildBVHMotion`:
position values then rotation values, each group space-separated, with a
trailing separator space. -/
def motionGroup (bone : BNode) : String :=
  let pos := bone.position
  let rot := bone.rotDeg
  let posValues := toFixed6 pos.x ++ " " ++ toFixed6 pos.y ++ " " ++ toFixed6 pos.z
  let rotValues := toFixed6 rot.x ++ " " ++ toFixed6 rot.y ++ " " ++ toFixed6 rot.z
  posValues ++ " " ++ rotValues ++ " "

/-- `buildBVHMotion(bones)` of `main.js`: concatenate every bone's values
in bone-set order, trim the trailing separator, terminate with a
newline. -/
def buildBVHMotion (bones : List BNode) : String :=
  jsTrim (joinStrs (bones.map motionGroup)) ++ "\n"

/-- The root-selection predicate `!bone.parent || !bone.parent.isBone`. -/
def rootBoneCandidate (bone : BNode) : Bool :=
  match bone.parent with
  | .null => true
  | .nonBone => true
  | .boneParent => false

/-- `bones.find(bone => !bone.parent || !bone.parent.isBone) || bones[0]`. -/
def rootBoneOf (bones : List BNode) : BNode :=
  (bones.find? rootBoneCandidate).getD bones.headI

/-- `exportToBVH()` of `main.js`, as a function of the bone set: `none`
models the early return (no document, no download) on an empty bone set;
otherwise the returned string is the document handed to the download
blob. -/
def exportToBVH (bones : List BNode) : Option String :=
  if bones.length = 0 then none
  else
    let rootBone := rootBoneOf bones
    some ("HIERARCHY\n" ++ buildBVHHierarchy rootBone 0
      ++ "MOTION\n" ++ "Frames: 1\n" ++ "Frame Time: 0.033333\n"
      ++ buildBVHMotion bones)

/-! ## Specification-side views of the exporter -/

mutual

/-- The lines (without terminating newlines) that `buildBVHHierarchy`
emits for a subtree, before the (vacuous) root rewrite. -/
def hierLines : BNode → Nat → List String
  | .other, _ => []
  | .bone id name _ position _ children, level =>
    let ind := strRepeat "  " level
    [ind ++ "JOINT " ++ jsNameOr name ("Bone_" ++ natToStr id),
     ind ++ "\x7b",
     ind ++ "  OFFSET " ++ toFixed6 position.x ++ " " ++ toFixed6 position.y
       ++ " " ++ toFixed6 position.z,
     ind ++ "  CHANNELS 6 Xposition Yposition Zposition Xrotation Yrotation Zrotation"]
    ++ (if children.any BNode.isBone then hierKidsLines children (level + 1)
        else [ind ++ "  End Site", ind ++ "  \x7b",
              ind ++ "    OFFSET 0.0 0.0 0.0", ind ++ "  \x7d"])
    ++ [ind ++ "\x7d"]

/-- The lines contributed by a child list (non-bone children are
skipped). -/
def hierKidsLines : List BNode → Nat → List String
  | [], _ => []
  | c :: cs, level => (if c.isBone then hierLines c level else []) ++ hierKidsLines cs level

end

mutual

/-- The bones in the order the hierarchy traversal emits their joints:
the node first, then its bone children depth-first, left to right. -/
def dfsBones : BNode → List BNode
  | .other => []
  | .bone id name p pos r children => .bone id name p pos r children :: dfsKids children

/-- Depth-first joint order over a child list. -/
def dfsKids : List BNode → List BNode
  | [] => []
  | c :: cs => (if c.isBone then dfsBones c else []) ++ dfsKids cs

end

mutual

/-- Well-formedness of a subtree's names: every emitted joint label is a
single line (contains no newline).  Scene names are single-line in
practice; the exporter itself would splice a multi-line name straight
into the document. -/
def goodNames : BNode → Bool
  | .other => true
  | .bone id name _ _ _ children =>
    noNl (jsNameOr name ("Bone_" ++ natToStr id)) && goodNamesList children

/-- `goodNames` over a child list. -/
def goodNamesList : List BNode → Bool
  | [] => true
  | c :: cs => goodNames c && goodNamesList cs

end

/-- The six serialized channel values of one bone, in motion-line order:
position x, y, z then rotation x, y, z. -/
def motionGroupToks (b : BNode) : List String :=
  [toFixed6 b.position.x, toFixed6 b.position.y, toFixed6 b.position.z,
   toFixed6 b.rotDeg.x, toFixed6 b.rotDeg.y, toFixed6 b.rotDeg.z]

/-- The ids of a bone list. -/
def idsOf (bs : List BNode) : List Nat :=
  bs.map BNode.id

/-! ## Character-level facts -/

theorem digitCh_digit (n : Nat) : isDigitCh (digitCh n) = true := by
  unfold digitCh
  split <;> decide

theorem isDigitCh_elim {c : Char} (h : isDigitCh c = true) :
    c = '0' ∨ c = '1' ∨ c = '2' ∨ c = '3' ∨ c = '4' ∨
    c = '5' ∨ c = '6' ∨ c = '7' ∨ c = '8' ∨ c = '9' := by
  simp only [isDigitCh, Bool.or_eq_true, beq_iff_eq] at h
  tauto

theorem isDigitCh_ne_dot {c : Char} (h : isDigitCh c = true) : (c == '.') = false := by
  rcases isDigitCh_elim h with rfl | rfl | rfl | rfl | rfl | rfl | rfl | rfl | rfl | rfl <;> decide

theorem okNumCh_ws {c : Char} (h : okNumCh c = true) : isWsChar c = false := by
  have h3 : isDigitCh c = true ∨ c = '-' ∨ c = '.' := by
    simp only [okNumCh, Bool.or_eq_true, beq_iff_eq] at h
    tauto
  rcases h3 with hd | rfl | rfl
  · rcases isDigitCh_elim hd with rfl | rfl | rfl | rfl | rfl | rfl | rfl | rfl | rfl | rfl <;> decide
  · decide
  · decide

theorem okNumCh_nl {c : Char} (h : okNumCh c = true) : (c == '\n') = false := by
  have h3 : isDigitCh c = true ∨ c = '-' ∨ c = '.' := by
    simp only [okNumCh, Bool.or_eq_true, beq_iff_eq] at h
    tauto
  rcases h3 with hd | rfl | rfl
  · rcases isDigitCh_elim hd with rfl | rfl | rfl | rfl | rfl | rfl | rfl | rfl | rfl | rfl <;> decide
  · decide
  · decide

theorem okNumCh_notJ {c : Char} (h : okNumCh c = true) : (c == 'J') = false := by
  have h3 : isDigitCh c = true ∨ c = '-' ∨ c = '.' := by
    simp only [okNumCh, Bool.or_eq_true, beq_iff_eq] at h
    tauto
  rcases h3 with hd | rfl | rfl
  · rcases isDigitCh_elim hd with rfl | rfl | rfl | rfl | rfl | rfl | rfl | rfl | rfl | rfl <;> decide
  · decide
  · decide

theorem okNumCh_notR {c : Char} (h : okNumCh c = true) : (c == 'R') = false := by
  have h3 : isDigitCh c = true ∨ c = '-' ∨ c = '.' := by
    simp only [okNumCh, Bool.or_eq_true, beq_iff_eq] at h
    tauto
  rcases h3 with hd | rfl | rfl
  · rcases isDigitCh_elim hd with rfl | rfl | rfl | rfl | rfl | rfl | rfl | rfl | rfl | rfl <;> decide
  · decide
  · decide

theorem all_mono {p q : Char → Bool} (l : List Char)
    (hpq : ∀ c, p c = true → q c = true) (h : l.all p = true) : l.all q = true := by
  rw [List.all_eq_true] at h ⊢
  exact fun c hc => hpq c (h c hc)

theorem natDigitsAux_digits : ∀ fuel n, (natDigitsAux fuel n).all isDigitCh = true := by
  intro fuel
  induction fuel with
  | zero => intro n; rfl
  | succ fuel ih =>
    intro n
    unfold natDigitsAux
    split
    · simp [digitCh_digit]
    · simp [List.all_append, ih (n / 10), digitCh_digit]

theorem natDigitsAux_ne_nil (fuel n : Nat) : natDigitsAux (fuel + 1) n ≠ [] := by
  unfold natDigitsAux
  split
  · simp
  · simp

theorem natToStr_digits (n : Nat) : (natToStr n).data.all isDigitCh = true :=
  natDigitsAux_digits (n + 1) n

theorem natToStr_ne_nil (n : Nat) : (natToStr n).data ≠ [] :=
  natDigitsAux_ne_nil n n

theorem pad6_digits (n : Nat) : (pad6 n).data.all isDigitCh = true := by
  simp [pad6, digitCh_digit]

theorem toFixed6_ok (v : Int) : (toFixed6 v).data.all okNumCh = true := by
  have hnat : (natToStr (v.natAbs / 1000000)).data.all okNumCh = true :=
    all_mono _ (fun c hc => by simp [okNumCh, hc]) (natToStr_digits _)
  have hpad : (pad6 (v.natAbs % 1000000)).data.all okNumCh = true :=
    all_mono _ (fun c hc => by simp [okNumCh, hc]) (pad6_digits _)
  unfold toFixed6
  split <;> simp_all [String.data_append, List.all_append] <;> decide

theorem toFixed6_ne_nil (v : Int) : (toFixed6 v).data ≠ [] := by
  unfold toFixed6
  split <;> simp [String.data_append, pad6]

theorem toFixed6_nonWs (v : Int) : (toFixed6 v).data.all (fun c => !isWsChar c) = true :=
  all_mono _ (fun c hc => by simp [okNumCh_ws hc]) (toFixed6_ok v)

theorem toFixed6_noNl (v : Int) : noNl (toFixed6 v) = true :=
  all_mono _ (fun c hc => by simp [okNumCh_nl hc]) (toFixed6_ok v)

theorem dropWhile_append_all {p : Char → Bool} {a : List Char} (b : List Char)
    (h : ∀ c ∈ a, p c = true) : (a ++ b).dropWhile p = b.dropWhile p := by
  induction a with
  | nil => rfl
  | cons c cs ih =>
    simp only [List.cons_append, List.dropWhile_cons, h c (by simp)]
    exact ih (fun x hx => h x (by simp [hx]))

theorem sixDecimals_toFixed6 (v : Int) : sixDecimalsB (toFixed6 v) = true := by
  have hsign : ∀ c ∈ (if v < 0 then "-" else "").data, (!(c == '.')) = true := by
    split
    · intro c hc
      have : c = '-' := by simpa using hc
      simp [this]
    · intro c hc
      simp at hc
  have hnat : ∀ c ∈ (natToStr (v.natAbs / 1000000)).data, (!(c == '.')) = true := by
    intro c hc
    have := List.all_eq_true.mp (natToStr_digits (v.natAbs / 1000000)) c hc
    simp [isDigitCh_ne_dot this]
  unfold sixDecimalsB toFixed6
  rw [show ((if v < 0 then "-" else "") ++ natToStr (v.natAbs / 1000000) ++ "." ++
        pad6 (v.natAbs % 1000000)).data
      = ((if v < 0 then "-" else "").data ++ (natToStr (v.natAbs / 1000000)).data) ++
        ('.' :: (pad6 (v.natAbs % 1000000)).data) by
    simp [String.data_append]]
  rw [dropWhile_append_all _ (by
    intro c hc
    rcases List.mem_append.mp hc with h | h
    · exact hsign c h
    · exact hnat c h)]
  simp [List.dropWhile_cons, pad6, digitCh_digit]

/-! ## Indentation, line-head and newline facts -/

theorem strRepeat_zero : strRepeat "  " 0 = "" := rfl

theorem strRepeat_succ_data (n : Nat) :
    (strRepeat "  " (n + 1)).data = ' ' :: ' ' :: (strRepeat "  " n).data := by
  show ("  " ++ strRepeat "  " n).data = _
  simp [String.data_append]

theorem strRepeat_sp (n : Nat) : (strRepeat "  " n).data.all (fun c => c == ' ') = true := by
  induction n with
  | zero => rfl
  | succ n ih => simp [strRepeat_succ_data, ih]

theorem noNl_append (s t : String) : noNl (s ++ t) = (noNl s && noNl t) := by
  simp [noNl, String.data_append, List.all_append]

theorem noNl_of_spaces {s : String} (h : s.data.all (fun c => c == ' ') = true) :
    noNl s = true :=
  all_mono _ (fun c hc => by
    have : c = ' ' := by simpa using hc
    simp [this]) h

theorem headIs_append (t : Char) (a b : List Char) :
    headIs t (a ++ b) = if a = [] then headIs t b else headIs t a := by
  cases a <;> simp [headIs]

theorem headIs_ne {c1 c2 : Char} {l : List Char} (h : headIs c1 l = true)
    (hne : (c1 == c2) = false) : headIs c2 l = false := by
  cases l with
  | nil => rfl
  | cons c cs =>
    have : c = c1 := by simpa [headIs] using h
    subst this
    simpa [headIs] using hne

theorem headIs_ind (t : Char) (n : Nat) (x : List Char) :
    headIs t ((strRepeat "  " n).data ++ x)
      = if n = 0 then headIs t x else (' ' == t) := by
  cases n with
  | zero =>
    have h0 : (strRepeat "  " 0).data = [] := rfl
    simp [h0]
  | succ n => simp [strRepeat_succ_data, headIs]

/-! ## Prefixes and the first-occurrence replace -/

theorem isPrefixL_ex : ∀ (p l : List Char), isPrefixL p l = true → ∃ t, l = p ++ t := by
  intro p
  induction p with
  | nil => exact fun l _ => ⟨l, rfl⟩
  | cons x ps ih =>
    intro l h
    cases l with
    | nil => simp [isPrefixL] at h
    | cons c cs =>
      simp only [isPrefixL, Bool.and_eq_true, beq_iff_eq] at h
      obtain ⟨t, ht⟩ := ih cs h.2
      exact ⟨t, by simp [h.1, ht]⟩

theorem isPrefixL_append_self : ∀ (p t : List Char), isPrefixL p (p ++ t) = true := by
  intro p
  induction p with
  | nil => intro t; rfl
  | cons x ps ih => intro t; simp [isPrefixL, ih]

theorem isPrefixL_head {c : Char} {ps l : List Char} (h : isPrefixL (c :: ps) l = true) :
    headIs c l = true := by
  cases l with
  | nil => simp [isPrefixL] at h
  | cons d ds =>
    simp only [isPrefixL, Bool.and_eq_true, beq_iff_eq] at h
    simp [headIs, h.1]

theorem hasNJ_cons (c : Char) (cs : List Char) :
    hasNJ (c :: cs) = ((c == '\n' && headIs 'J' cs) || hasNJ cs) := rfl

theorem hasNJ_append_left {a : List Char} (b : List Char) (h : hasNJ a = true) :
    hasNJ (a ++ b) = true := by
  induction a with
  | nil => simp [hasNJ] at h
  | cons c cs ih =>
    rw [List.cons_append, hasNJ_cons]
    rw [hasNJ_cons] at h
    cases hnj : hasNJ cs with
    | true => simp [ih hnj]
    | false =>
      rw [hnj, Bool.or_false, Bool.and_eq_true] at h
      obtain ⟨h1, h2⟩ := h
      cases cs with
      | nil => simp [headIs] at h2
      | cons d ds =>
        have hd : d = 'J' := by simpa [headIs] using h2
        simp [h1, hd, headIs]

theorem hasNJ_append_nonl : ∀ (a : List Char), a.all (fun c => !(c == '\n')) = true →
    ∀ (b : List Char), hasNJ b = false → hasNJ (a ++ b) = false := by
  intro a
  induction a with
  | nil => exact fun _ b hb => hb
  | cons c cs ih =>
    intro h b hb
    have hc : (c == '\n') = false := by
      have := List.all_eq_true.mp h c (by simp)
      simpa using this
    have hcs : cs.all (fun c => !(c == '\n')) = true := by
      rw [List.all_eq_true] at h ⊢
      exact fun x hx => h x (by simp [hx])
    rw [List.cons_append, hasNJ_cons, hc]
    simp [ih hcs b hb]

theorem hasNJ_pattern : hasNJ ("HIERARCHY\nJOINT".data) = true := by decide

theorem replaceFirst_noop (rep : List Char) :
    ∀ (l : List Char), hasNJ l = false → replaceFirstL ("HIERARCHY\nJOINT".data) rep l = l := by
  intro l
  induction l with
  | nil => intro _; rfl
  | cons c cs ih =>
    intro h
    have hnp : isPrefixL ("HIERARCHY\nJOINT".data) (c :: cs) = false := by
      by_contra hcon
      have htrue : isPrefixL ("HIERARCHY\nJOINT".data) (c :: cs) = true := by
        revert hcon
        cases isPrefixL ("HIERARCHY\nJOINT".data) (c :: cs) <;> simp
      obtain ⟨t, ht⟩ := isPrefixL_ex _ _ htrue
      rw [ht, hasNJ_append_left t hasNJ_pattern] at h
      exact Bool.true_eq_false.mp h
    have hcs : hasNJ cs = false := by
      rw [hasNJ_cons] at h
      cases hx : hasNJ cs
      · rfl
      · rw [hx, Bool.or_true] at h
        exact h
    unfold replaceFirstL
    rw [if_neg (by simp [hnp]), ih hcs]

theorem jsReplaceFirst_noop {s : String} (h : hasNJ s.data = false) :
    jsReplaceFirst s "HIERARCHY\nJOINT" "HIERARCHY\nROOT" = s := by
  show (⟨replaceFirstL _ _ s.data⟩ : String) = s
  rw [replaceFirst_noop _ s.data h]

/-! ## Lines and rendering -/

theorem linesOfL_ne_nil : ∀ (l : List Char), linesOfL l ≠ [] := by
  intro l
  induction l with
  | nil => simp [linesOfL]
  | cons c cs ih =>
    unfold linesOfL
    split
    · simp
    · split
      · simp
      · simp

theorem linesOfL_cons_of_ne {c : Char} (cs : List Char) (l : List Char) (ls : List (List Char))
    (hc : ¬(c = '\n')) (h : linesOfL cs = l :: ls) :
    linesOfL (c :: cs) = (c :: l) :: ls := by
  unfold linesOfL
  rw [if_neg hc, h]

theorem linesOfL_line : ∀ (line : List Char), line.all (fun c => !(c == '\n')) = true →
    ∀ rest, linesOfL (line ++ '\n' :: rest) = line :: linesOfL rest := by
  intro line
  induction line with
  | nil =>
    intro _ rest
    simp [linesOfL]
  | cons c cs ih =>
    intro h rest
    have hc : ¬(c = '\n') := by
      have := List.all_eq_true.mp h c (by simp)
      simpa using this
    have hcs : cs.all (fun c => !(c == '\n')) = true := by
      rw [List.all_eq_true] at h ⊢
      exact fun x hx => h x (by simp [hx])
    rw [List.cons_append, linesOfL_cons_of_ne _ _ _ hc (ih hcs rest)]

theorem renderLines_append : ∀ (xs ys : List String),
    renderLines (xs ++ ys) = renderLines xs ++ renderLines ys := by
  intro xs ys
  induction xs with
  | nil =>
    apply String.ext
    simp [renderLines, String.data_append]
  | cons s ss ih =>
    apply String.ext
    simp [renderLines, String.data_append, ih]

theorem mk_data_eq (s : String) : (⟨s.data⟩ : String) = s := rfl

theorem linesOf_render : ∀ (ls : List String), (∀ s ∈ ls, noNl s = true) →
    linesOfS (renderLines ls) = ls ++ [""] := by
  intro ls
  induction ls with
  | nil => intro _; rfl
  | cons s ss ih =>
    intro h
    have hdata : (renderLines (s :: ss)).data = s.data ++ '\n' :: (renderLines ss).data := by
      show (s ++ "\n" ++ renderLines ss).data = _
      simp [String.data_append]
    unfold linesOfS
    rw [hdata, linesOfL_line s.data (h s (by simp)) _]
    have ihr := ih (fun x hx => h x (by simp [hx]))
    unfold linesOfS at ihr
    simp only [List.map_cons, mk_data_eq, ihr]
    simp [ihr]

theorem hasNJ_render : ∀ (ls : List String), (∀ s ∈ ls, noNl s = true) →
    (∀ s ∈ ls.tail, headIs 'J' s.data = false) →
    hasNJ (renderLines ls).data = false := by
  intro ls
  induction ls with
  | nil => intro _ _; rfl
  | cons s ss ih =>
    intro h1 h2
    have hdata : (renderLines (s :: ss)).data = s.data ++ '\n' :: (renderLines ss).data := by
      show (s ++ "\n" ++ renderLines ss).data = _
      simp [String.data_append]
    rw [hdata]
    apply hasNJ_append_nonl s.data (h1 s (by simp))
    have hhead : headIs 'J' (renderLines ss).data = false := by
      cases ss with
      | nil => rfl
      | cons s2 ss2 =>
        have hd2 : (renderLines (s2 :: ss2)).data = s2.data ++ '\n' :: (renderLines ss2).data := by
          show (s2 ++ "\n" ++ renderLines ss2).data = _
          simp [String.data_append]
        rw [hd2, headIs_append]
        split
        · rfl
        · exact h2 s2 (by simp)
    have hrest : hasNJ (renderLines ss).data = false :=
      ih (fun x hx => h1 x (by simp [hx])) (fun x hx => h2 x (List.mem_of_mem_tail hx))
    rw [hasNJ_cons]
    simp [hhead, hrest]

/-! ## Whitespace tokenization -/

theorem tokAux_cons_ws {c : Char} (h : isWsChar c = true) (l : List Char) :
    tokAux (c :: l) = ([], tokensOfL l) := by
  simp [tokAux, h, tokensOfL]

theorem tokAux_cons_nonws {c : Char} (h : isWsChar c = false) (l : List Char) :
    tokAux (c :: l) = (c :: (tokAux l).1, (tokAux l).2) := by
  simp [tokAux, h]

theorem tokensOfL_ws_cons {w : Char} (hw : isWsChar w = true) (l : List Char) :
    tokensOfL (w :: l) = tokensOfL l := by
  unfold tokensOfL
  rw [tokAux_cons_ws hw]
  simp [maybeConsTok]
  rfl

theorem tokAux_pre : ∀ (t : List Char), t.all (fun c => !isWsChar c) = true →
    ∀ {w : Char}, isWsChar w = true → ∀ (rest : List Char),
    tokAux (t ++ w :: rest) = (t, tokensOfL rest) := by
  intro t
  induction t with
  | nil =>
    intro _ w hw rest
    exact tokAux_cons_ws hw rest
  | cons c cs ih =>
    intro ht w hw rest
    have hc : isWsChar c = false := by
      have := List.all_eq_true.mp ht c (by simp)
      simpa using this
    have hcs : cs.all (fun c => !isWsChar c) = true := by
      rw [List.all_eq_true] at ht ⊢
      exact fun x hx => ht x (by simp [hx])
    rw [List.cons_append, tokAux_cons_nonws hc, ih hcs hw rest]

theorem tokensOfL_sep {tok : List Char} (h1 : tok ≠ [])
    (h2 : tok.all (fun c => !isWsChar c) = true)
    {w : Char} (hw : isWsChar w = true) (rest : List Char) :
    tokensOfL (tok ++ w :: rest) = tok :: tokensOfL rest := by
  unfold tokensOfL
  rw [tokAux_pre tok h2 hw rest]
  simp [maybeConsTok, h1]
  rfl

theorem tokensOfL_last {tok : List Char} (h1 : tok ≠ [])
    (h2 : tok.all (fun c => !isWsChar c) = true) :
    tokensOfL tok = [tok] := by
  have aux : ∀ (t : List Char), t.all (fun c => !isWsChar c) = true → tokAux t = (t, []) := by
    intro t
    induction t with
    | nil => exact fun _ => rfl
    | cons c cs ih =>
      intro ht
      have hc : isWsChar c = false := by
        have := List.all_eq_true.mp ht c (by simp)
        simpa using this
      have hcs : cs.all (fun c => !isWsChar c) = true := by
        rw [List.all_eq_true] at ht ⊢
        exact fun x hx => ht x (by simp [hx])
      rw [tokAux_cons_nonws hc, ih hcs]
  unfold tokensOfL
  rw [aux tok h2]
  simp [maybeConsTok, h1]

theorem tokAux_append_one_ws : ∀ (l : List Char) {w : Char}, isWsChar w = true →
    tokAux (l ++ [w]) = tokAux l := by
  intro l
  induction l with
  | nil =>
    intro w hw
    rw [List.nil_append, tokAux_cons_ws hw]
    rfl
  | cons c cs ih =>
    intro w hw
    cases hc : isWsChar c with
    | true =>
      rw [List.cons_append, tokAux_cons_ws hc, tokAux_cons_ws hc]
      unfold tokensOfL
      rw [ih hw]
    | false =>
      rw [List.cons_append, tokAux_cons_nonws hc, tokAux_cons_nonws hc, ih hw]

theorem tokAux_append_ws : ∀ (sfx : List Char), sfx.all isWsChar = true →
    ∀ (l : List Char), tokAux (l ++ sfx) = tokAux l := by
  intro sfx
  induction sfx with
  | nil => intro _ l; simp
  | cons w ws ih =>
    intro h l
    have hw : isWsChar w = true := List.all_eq_true.mp h w (by simp)
    have hws : ws.all isWsChar = true := by
      rw [List.all_eq_true] at h ⊢
      exact fun x hx => h x (by simp [hx])
    rw [show l ++ w :: ws = (l ++ [w]) ++ ws by simp, ih hws, tokAux_append_one_ws l hw]

theorem tokensOfL_ws_prefix : ∀ (pre : List Char), pre.all isWsChar = true →
    ∀ (l : List Char), tokensOfL (pre ++ l) = tokensOfL l := by
  intro pre
  induction pre with
  | nil => intro _ l; rfl
  | cons w ws ih =>
    intro h l
    have hw : isWsChar w = true := List.all_eq_true.mp h w (by simp)
    have hws : ws.all isWsChar = true := by
      rw [List.all_eq_true] at h ⊢
      exact fun x hx => h x (by simp [hx])
    rw [List.cons_append, tokensOfL_ws_cons hw, ih hws]

theorem tokensOfL_trim (s : String) : tokensOfL (jsTrim s).data = tokensOfL s.data := by
  have hpre : (s.data.takeWhile isWsChar).all isWsChar = true := by
    rw [List.all_eq_true]
    exact fun x hx => List.mem_takeWhile_imp hx
  have h1 : tokensOfL s.data = tokensOfL (s.data.dropWhile isWsChar) := by
    conv_lhs => rw [← List.takeWhile_append_dropWhile isWsChar s.data]
    exact tokensOfL_ws_prefix _ hpre _
  have hm :
      s.data.dropWhile isWsChar
        = ((s.data.dropWhile isWsChar).reverse.dropWhile isWsChar).reverse
          ++ ((s.data.dropWhile isWsChar).reverse.takeWhile isWsChar).reverse := by
    conv_lhs =>
      rw [← List.reverse_reverse (s.data.dropWhile isWsChar),
        ← List.takeWhile_append_dropWhile isWsChar (s.data.dropWhile isWsChar).reverse]
    rw [List.reverse_append]
  have hsfx : ((s.data.dropWhile isWsChar).reverse.takeWhile isWsChar).reverse.all isWsChar = true := by
    rw [List.all_eq_true]
    intro x hx
    exact List.mem_takeWhile_imp (List.mem_reverse.mp hx)
  have h2 : tokensOfL (s.data.dropWhile isWsChar) = tokensOfL (jsTrim s).data := by
    conv_lhs => rw [hm]
    show tokensOfL _ = tokensOfL ((s.data.dropWhile isWsChar).reverse.dropWhile isWsChar).reverse
    unfold tokensOfL
    rw [tokAux_append_ws _ hsfx]
  rw [h1, h2]

/-! ## Motion-line structure -/

theorem tok_step (v : Int) (X : List Char) :
    tokensOfL ((toFixed6 v).data ++ ' ' :: X) = (toFixed6 v).data :: tokensOfL X :=
  tokensOfL_sep (toFixed6_ne_nil v) (toFixed6_nonWs v) (by decide) X

theorem motion_tokens : ∀ (bones : List BNode),
    tokensOfL (joinStrs (bones.map motionGroup)).data
      = ((bones.map motionGroupToks).flatten).map String.data := by
  intro bones
  induction bones with
  | nil => rfl
  | cons b bs ih =>
    have hsp : (" " : String).data = [' '] := rfl
    have harr : (motionGroup b ++ joinStrs (bs.map motionGroup)).data
        = (toFixed6 b.position.x).data ++ ' ' :: ((toFixed6 b.position.y).data ++ ' '
          :: ((toFixed6 b.position.z).data ++ ' ' :: ((toFixed6 b.rotDeg.x).data ++ ' '
          :: ((toFixed6 b.rotDeg.y).data ++ ' ' :: ((toFixed6 b.rotDeg.z).data ++ ' '
          :: (joinStrs (bs.map motionGroup)).data))))) := by
      simp [motionGroup, String.data_append, List.append_assoc, hsp]
    show tokensOfL (motionGroup b ++ joinStrs (bs.map motionGroup)).data = _
    rw [harr, tok_step, tok_step, tok_step, tok_step, tok_step, tok_step, ih]
    simp [motionGroupToks]

theorem motion_wsTokens (bones : List BNode) :
    wsTokens (buildBVHMotion bones) = (bones.map motionGroupToks).flatten := by
  have hnl : ("\n" : String).data = ['\n'] := rfl
  have hdata : (buildBVHMotion bones).data
      = (jsTrim (joinStrs (bones.map motionGroup))).data ++ ['\n'] := by
    show (jsTrim (joinStrs (bones.map motionGroup)) ++ "\n").data = _
    simp [String.data_append, hnl]
  have happ : ∀ (l : List Char), tokensOfL (l ++ ['\n']) = tokensOfL l := by
    intro l
    unfold tokensOfL
    rw [tokAux_append_ws ['\n'] (by decide) l]
  unfold wsTokens
  rw [hdata, happ, tokensOfL_trim, motion_tokens]
  rw [List.map_map]
  have : ((bones.map motionGroupToks).flatten).map ((fun l => (⟨l⟩ : String)) ∘ String.data)
      = ((bones.map motionGroupToks).flatten).map id := by
    apply List.map_congr_left
    intro s _
    rfl
  rw [this, List.map_id]

theorem motion_token_count (bones : List BNode) :
    (wsTokens (buildBVHMotion bones)).length = 6 * bones.length := by
  rw [motion_wsTokens]
  induction bones with
  | nil => rfl
  | cons b bs ih =>
    show (motionGroupToks b ++ (bs.map motionGroupToks).flatten).length = _
    rw [List.length_append, ih]
    show 6 + 6 * bs.length = 6 * (bs.length + 1)
    omega

theorem flatten_chunks6 : ∀ (groups : List (List String)), (∀ g ∈ groups, g.length = 6) →
    ∀ (i : Nat) (hi : i < groups.length),
    ((groups.flatten).drop (6 * i)).take 6 = groups.get ⟨i, hi⟩ := by
  intro groups
  induction groups with
  | nil => intro _ i hi; simp at hi
  | cons g gs ih =>
    intro h i hi
    cases i with
    | zero =>
      show ((g ++ gs.flatten).drop 0).take 6 = g
      rw [List.drop_zero]
      exact List.take_left' (h g (by simp))
    | succ i =>
      have h6 : 6 * (i + 1) = g.length + 6 * i := by
        rw [h g (by simp)]
        omega
      show ((g ++ gs.flatten).drop (6 * (i + 1))).take 6 = _
      rw [h6, List.drop_append]
      exact ih (fun x hx => h x (by simp [hx])) i (by simpa using hi)

theorem motion_group_at (bones : List BNode) (i : Nat) (hi : i < bones.length) :
    ((wsTokens (buildBVHMotion bones)).drop (6 * i)).take 6
      = motionGroupToks (bones.get ⟨i, hi⟩) := by
  rw [motion_wsTokens]
  rw [flatten_chunks6 (bones.map motionGroupToks)
    (by
      intro g hg
      obtain ⟨b, _, rfl⟩ := List.mem_map.mp hg
      rfl)
    i (by simpa using hi)]
  simp [List.getElem_map]

/-! ## Hierarchy-block structure -/

theorem noNl_ind (n : Nat) : noNl (strRepeat "  " n) = true :=
  noNl_of_spaces (strRepeat_sp n)

theorem headIs_ind_false {t : Char} (n : Nat) (x : List Char)
    (h0 : headIs t x = false) (hsp : (' ' == t) = false) :
    headIs t ((strRepeat "  " n).data ++ x) = false := by
  rw [headIs_ind]
  split
  · exact h0
  · exact hsp

theorem headIs_append_lit {t : Char} (pre : String) (rest : List Char)
    (hne : ¬(pre.data = [])) :
    headIs t (pre.data ++ rest) = headIs t pre.data := by
  rw [headIs_append, if_neg hne]

theorem str_empty_append (s : String) : "" ++ s = s := by
  apply String.ext
  simp [String.data_append]

mutual

theorem build_render : ∀ (b : BNode) (l : Nat), goodNames b = true →
    buildBVHHierarchy b l = renderLines (hierLines b l) ∧
    (∀ s ∈ hierLines b l, noNl s = true) ∧
    (1 ≤ l → ∀ s ∈ hierLines b l, headIs ' ' s.data = true)
  | .other, _, _ => by
    refine ⟨rfl, ?_, ?_⟩ <;> simp [hierLines]
  | .bone id name p pos r children, l, h => by
    have hGN : noNl (jsNameOr name ("Bone_" ++ natToStr id)) = true ∧
        goodNamesList children = true := by
      simpa [goodNames, Bool.and_eq_true] using h
    have hindNl : noNl (strRepeat "  " l) = true := noNl_ind l
    have hemp : ("" : String).data = ([] : List Char) := rfl
    have d1 : noNl "JOINT " = true := by decide
    have d2 : noNl "\x7b" = true := by decide
    have d3 : noNl "  OFFSET " = true := by decide
    have d4 : noNl " " = true := by decide
    have d5 : noNl "  CHANNELS 6 Xposition Yposition Zposition Xrotation Yrotation Zrotation"
        = true := by decide
    have d6 : noNl "  End Site" = true := by decide
    have d7 : noNl "  \x7b" = true := by decide
    have d8 : noNl "    OFFSET 0.0 0.0 0.0" = true := by decide
    have d9 : noNl "  \x7d" = true := by decide
    have d10 : noNl "\x7d" = true := by decide
    cases hany : children.any BNode.isBone with
    | true =>
      have hkids := build_render_kids children (l + 1) hGN.2
      have hHL : hierLines (.bone id name p pos r children) l
          = (strRepeat "  " l ++ "JOINT " ++ jsNameOr name ("Bone_" ++ natToStr id))
            :: (strRepeat "  " l ++ "\x7b")
            :: (strRepeat "  " l ++ "  OFFSET " ++ toFixed6 pos.x ++ " " ++ toFixed6 pos.y
                ++ " " ++ toFixed6 pos.z)
            :: (strRepeat "  " l ++ "  CHANNELS 6 Xposition Yposition Zposition Xrotation Yrotation Zrotation")
            :: (hierKidsLines children (l + 1) ++ [strRepeat "  " l ++ "\x7d"]) := by
        simp [hierLines, hany, List.cons_append, List.nil_append]
      have hnoNl : ∀ s ∈ hierLines (.bone id name p pos r children) l, noNl s = true := by
        rw [hHL]
        rw [List.forall_mem_cons, List.forall_mem_cons, List.forall_mem_cons,
          List.forall_mem_cons, List.forall_mem_append, List.forall_mem_singleton]
        refine ⟨?_, ?_, ?_, ?_, ?_, ?_⟩
        · simp [noNl_append, hindNl, hGN.1, d1]
        · simp [noNl_append, hindNl, d2]
        · simp [noNl_append, hindNl, toFixed6_noNl, d3, d4]
        · simp [noNl_append, hindNl, d5]
        · exact hkids.2.1
        · simp [noNl_append, hindNl, d10]
      have hheadJ : ∀ s ∈ (hierLines (.bone id name p pos r children) l).tail,
          headIs 'J' s.data = false := by
        rw [hHL, List.tail_cons]
        rw [List.forall_mem_cons, List.forall_mem_cons, List.forall_mem_cons,
          List.forall_mem_append, List.forall_mem_singleton]
        refine ⟨?_, ?_, ?_, ?_, ?_⟩
        · simp only [String.data_append, List.append_assoc]
          rw [headIs_ind]
          split
          · decide
          · decide
        · simp only [String.data_append, List.append_assoc]
          rw [headIs_ind]
          split
          · rw [headIs_append_lit _ _ (by decide)]
            decide
          · decide
        · simp only [String.data_append, List.append_assoc]
          rw [headIs_ind]
          split
          · decide
          · decide
        · intro s hs
          exact headIs_ne (hkids.2.2 (by omega) s hs) (by decide)
        · simp only [String.data_append, List.append_assoc]
          rw [headIs_ind]
          split
          · decide
          · decide
      refine ⟨?_, hnoNl, ?_⟩
      · have hbuild : buildBVHHierarchy (.bone id name p pos r children) l
            = jsReplaceFirst (renderLines (hierLines (.bone id name p pos r children) l))
                "HIERARCHY\nJOINT" "HIERARCHY\nROOT" := by
          have e : buildBVHHierarchy (.bone id name p pos r children) l
              = jsReplaceFirst
                  (strRepeat "  " l ++ "JOINT " ++ jsNameOr name ("Bone_" ++ natToStr id) ++ "\n"
                    ++ strRepeat "  " l ++ "\x7b" ++ "\n"
                    ++ strRepeat "  " l ++ "  OFFSET " ++ toFixed6 pos.x ++ " " ++ toFixed6 pos.y
                      ++ " " ++ toFixed6 pos.z ++ "\n"
                    ++ strRepeat "  " l ++ "  CHANNELS 6 Xposition Yposition Zposition Xrotation Yrotation Zrotation" ++ "\n"
                    ++ (if children.any BNode.isBone then buildChildren children (l + 1)
                        else strRepeat "  " l ++ "  End Site" ++ "\n" ++ strRepeat "  " l ++ "  \x7b" ++ "\n"
                          ++ strRepeat "  " l ++ "    OFFSET 0.0 0.0 0.0" ++ "\n"
                          ++ strRepeat "  " l ++ "  \x7d" ++ "\n")
                    ++ strRepeat "  " l ++ "\x7d" ++ "\n")
                  "HIERARCHY\nJOINT" "HIERARCHY\nROOT" := rfl
          refine e.trans ?_
          refine congrArg (fun s => jsReplaceFirst s "HIERARCHY\nJOINT" "HIERARCHY\nROOT") ?_
          rw [hHL]
          apply String.ext
          simp [hany, hkids.1, renderLines, renderLines_append, String.data_append,
            List.append_assoc, hemp]
        rw [hbuild, jsReplaceFirst_noop (hasNJ_render _ hnoNl hheadJ)]
      · intro hl
        have hl0 : ¬(l = 0) := by omega
        rw [hHL]
        rw [List.forall_mem_cons, List.forall_mem_cons, List.forall_mem_cons,
          List.forall_mem_cons, List.forall_mem_append, List.forall_mem_singleton]
        refine ⟨?_, ?_, ?_, ?_, ?_, ?_⟩
        · simp only [String.data_append, List.append_assoc]
          rw [headIs_ind, if_neg hl0]
          decide
        · simp only [String.data_append, List.append_assoc]
          rw [headIs_ind, if_neg hl0]
          decide
        · simp only [String.data_append, List.append_assoc]
          rw [headIs_ind, if_neg hl0]
          decide
        · simp only [String.data_append, List.append_assoc]
          rw [headIs_ind, if_neg hl0]
          decide
        · exact hkids.2.2 (by omega)
        · simp only [String.data_append, List.append_assoc]
          rw [headIs_ind, if_neg hl0]
          decide
    | false =>
      have hHL : hierLines (.bone id name p pos r children) l
          = (strRepeat "  " l ++ "JOINT " ++ jsNameOr name ("Bone_" ++ natToStr id))
            :: (strRepeat "  " l ++ "\x7b")
            :: (strRepeat "  " l ++ "  OFFSET " ++ toFixed6 pos.x ++ " " ++ toFixed6 pos.y
                ++ " " ++ toFixed6 pos.z)
            :: (strRepeat "  " l ++ "  CHANNELS 6 Xposition Yposition Zposition Xrotation Yrotation Zrotation")
            :: (strRepeat "  " l ++ "  End Site")
            :: (strRepeat "  " l ++ "  \x7b")
            :: (strRepeat "  " l ++ "    OFFSET 0.0 0.0 0.0")
            :: (strRepeat "  " l ++ "  \x7d")
            :: [strRepeat "  " l ++ "\x7d"] := by
        simp [hierLines, hany, List.cons_append, List.nil_append]
      have hnoNl : ∀ s ∈ hierLines (.bone id name p pos r children) l, noNl s = true := by
        rw [hHL]
        rw [List.forall_mem_cons, List.forall_mem_cons, List.forall_mem_cons,
          List.forall_mem_cons, List.forall_mem_cons, List.forall_mem_cons,
          List.forall_mem_cons, List.forall_mem_cons, List.forall_mem_singleton]
        refine ⟨?_, ?_, ?_, ?_, ?_, ?_, ?_, ?_, ?_⟩
        · simp [noNl_append, hindNl, hGN.1, d1]
        · simp [noNl_append, hindNl, d2]
        · simp [noNl_append, hindNl, toFixed6_noNl, d3, d4]
        · simp [noNl_append, hindNl, d5]
        · simp [noNl_append, hindNl, d6]
        · simp [noNl_append, hindNl, d7]
        · simp [noNl_append, hindNl, d8]
        · simp [noNl_append, hindNl, d9]
        · simp [noNl_append, hindNl, d10]
      have hheadJ : ∀ s ∈ (hierLines (.bone id name p pos r children) l).tail,
          headIs 'J' s.data = false := by
        rw [hHL, List.tail_cons]
        rw [List.forall_mem_cons, List.forall_mem_cons, List.forall_mem_cons,
          List.forall_mem_cons, List.forall_mem_cons, List.forall_mem_cons,
          List.forall_mem_cons, List.forall_mem_singleton]
        refine ⟨?_, ?_, ?_, ?_, ?_, ?_, ?_, ?_⟩
        · simp only [String.data_append, List.append_assoc]
          rw [headIs_ind]
          split
          · decide
          · decide
        · simp only [String.data_append, List.append_assoc]
          rw [headIs_ind]
          split
          · rw [headIs_append_lit _ _ (by decide)]
            decide
          · decide
        all_goals
          simp only [String.data_append, List.append_assoc]
          rw [headIs_ind]
          split
          · decide
          · decide
      refine ⟨?_, hnoNl, ?_⟩
      · have hbuild : buildBVHHierarchy (.bone id name p pos r children) l
            = jsReplaceFirst (renderLines (hierLines (.bone id name p pos r children) l))
                "HIERARCHY\nJOINT" "HIERARCHY\nROOT" := by
          have e : buildBVHHierarchy (.bone id name p pos r children) l
              = jsReplaceFirst
                  (strRepeat "  " l ++ "JOINT " ++ jsNameOr name ("Bone_" ++ natToStr id) ++ "\n"
                    ++ strRepeat "  " l ++ "\x7b" ++ "\n"
                    ++ strRepeat "  " l ++ "  OFFSET " ++ toFixed6 pos.x ++ " " ++ toFixed6 pos.y
                      ++ " " ++ toFixed6 pos.z ++ "\n"
                    ++ strRepeat "  " l ++ "  CHANNELS 6 Xposition Yposition Zposition Xrotation Yrotation Zrotation" ++ "\n"
                    ++ (if children.any BNode.isBone then buildChildren children (l + 1)
                        else strRepeat "  " l ++ "  End Site" ++ "\n" ++ strRepeat "  " l ++ "  \x7b" ++ "\n"
                          ++ strRepeat "  " l ++ "    OFFSET 0.0 0.0 0.0" ++ "\n"
                          ++ strRepeat "  " l ++ "  \x7d" ++ "\n")
                    ++ strRepeat "  " l ++ "\x7d" ++ "\n")
                  "HIERARCHY\nJOINT" "HIERARCHY\nROOT" := rfl
          refine e.trans ?_
          refine congrArg (fun s => jsReplaceFirst s "HIERARCHY\nJOINT" "HIERARCHY\nROOT") ?_
          rw [hHL]
          apply String.ext
          simp [hany, renderLines, renderLines_append, String.data_append,
            List.append_assoc, hemp]
        rw [hbuild, jsReplaceFirst_noop (hasNJ_render _ hnoNl hheadJ)]
      · intro hl
        have hl0 : ¬(l = 0) := by omega
        rw [hHL]
        rw [List.forall_mem_cons, List.forall_mem_cons, List.forall_mem_cons,
          List.forall_mem_cons, List.forall_mem_cons, List.forall_mem_cons,
          List.forall_mem_cons, List.forall_mem_cons, List.forall_mem_singleton]
        refine ⟨?_, ?_, ?_, ?_, ?_, ?_, ?_, ?_, ?_⟩
        all_goals
          simp only [String.data_append, List.append_assoc]
          rw [headIs_ind, if_neg hl0]
          decide

theorem build_render_kids : ∀ (bs : List BNode) (l : Nat), goodNamesList bs = true →
    buildChildren bs l = renderLines (hierKidsLines bs l) ∧
    (∀ s ∈ hierKidsLines bs l, noNl s = true) ∧
    (1 ≤ l → ∀ s ∈ hierKidsLines bs l, headIs ' ' s.data = true)
  | [], _, _ => by
    refine ⟨rfl, ?_, ?_⟩ <;> simp [hierKidsLines]
  | c :: cs, l, h => by
    have hsplit : goodNames c = true ∧ goodNamesList cs = true := by
      simpa [goodNamesList, Bool.and_eq_true] using h
    have hc := build_render c l hsplit.1
    have hcs := build_render_kids cs l hsplit.2
    cases hcb : c.isBone with
    | true =>
      have hKL : hierKidsLines (c :: cs) l = hierLines c l ++ hierKidsLines cs l := by
        simp [hierKidsLines, hcb]
      refine ⟨?_, ?_, ?_⟩
      · show (if c.isBone then buildBVHHierarchy c l else "") ++ buildChildren cs l = _
        rw [hcb, if_pos rfl, hc.1, hcs.1, hKL, renderLines_append]
      · rw [hKL]
        intro s hs
        rcases List.mem_append.mp hs with hx | hx
        · exact hc.2.1 s hx
        · exact hcs.2.1 s hx
      · intro hl s hs
        rw [hKL] at hs
        rcases List.mem_append.mp hs with hx | hx
        · exact hc.2.2 hl s hx
        · exact hcs.2.2 hl s hx
    | false =>
      have hKL : hierKidsLines (c :: cs) l = hierKidsLines cs l := by
        simp [hierKidsLines, hcb]
      refine ⟨?_, ?_, ?_⟩
      · show (if c.isBone then buildBVHHierarchy c l else "") ++ buildChildren cs l = _
        rw [hcb, if_neg (by simp), str_empty_append, hcs.1, hKL]
      · rw [hKL]
        exact hcs.2.1
      · intro hl
        rw [hKL]
        exact hcs.2.2 hl

end

/-! ## Document-level structure -/

theorem export_eq (bones : List BNode) (h : bones ≠ []) :
    exportToBVH bones
      = some ("HIERARCHY\n" ++ buildBVHHierarchy (rootBoneOf bones) 0
          ++ "MOTION\n" ++ "Frames: 1\n" ++ "Frame Time: 0.033333\n"
          ++ buildBVHMotion bones) := by
  unfold exportToBVH
  rw [if_neg (fun hc => h (List.length_eq_zero.mp hc))]

theorem rootBoneOf_mem (bones : List BNode) (h : bones ≠ []) :
    rootBoneOf bones ∈ bones := by
  unfold rootBoneOf
  cases hf : bones.find? rootBoneCandidate with
  | some a =>
    simp only [Option.getD_some]
    exact List.mem_of_find?_eq_some hf
  | none =>
    simp only [Option.getD_none]
    cases bones with
    | nil => exact absurd rfl h
    | cons b bs => simp [List.headI]

theorem trim_subset (s : String) : ∀ c ∈ (jsTrim s).data, c ∈ s.data := by
  intro c hc
  have h1 : c ∈ (s.data.dropWhile isWsChar).reverse.dropWhile isWsChar := by
    have : (jsTrim s).data
        = ((s.data.dropWhile isWsChar).reverse.dropWhile isWsChar).reverse := rfl
    rw [this] at hc
    exact List.mem_reverse.mp hc
  have h2 : c ∈ (s.data.dropWhile isWsChar).reverse := (List.dropWhile_sublist _).mem h1
  have h3 : c ∈ s.data.dropWhile isWsChar := List.mem_reverse.mp h2
  exact (List.dropWhile_sublist _).mem h3

theorem motion_chars : ∀ (bones : List BNode),
    (joinStrs (bones.map motionGroup)).data.all (fun c => okNumCh c || c == ' ') = true := by
  intro bones
  induction bones with
  | nil => rfl
  | cons b bs ih =>
    show (motionGroup b ++ joinStrs (bs.map motionGroup)).data.all _ = true
    have hsp : (" " : String).data.all (fun c => okNumCh c || c == ' ') = true := by decide
    have hf : ∀ v : Int, (toFixed6 v).data.all (fun c => okNumCh c || c == ' ') = true :=
      fun v => all_mono _ (fun c hc => by simp [hc]) (toFixed6_ok v)
    simp [motionGroup, String.data_append, List.all_append, hsp, hf, ih]

theorem motion_noNl (bones : List BNode) :
    noNl (jsTrim (joinStrs (bones.map motionGroup))) = true := by
  rw [noNl, List.all_eq_true]
  intro c hc
  have hmem := trim_subset _ c hc
  have hcc := List.all_eq_true.mp (motion_chars bones) c hmem
  have h2 : okNumCh c = true ∨ c = ' ' := by simpa using hcc
  rcases h2 with hok | rfl
  · simp [okNumCh_nl hok]
  · decide

theorem export_render (bones : List BNode) (h : bones ≠ [])
    (hg : ∀ b ∈ bones, goodNames b = true) :
    exportToBVH bones
      = some (renderLines ("HIERARCHY" :: hierLines (rootBoneOf bones) 0
          ++ ["MOTION", "Frames: 1", "Frame Time: 0.033333",
              jsTrim (joinStrs (bones.map motionGroup))])) := by
  have hroot := (build_render (rootBoneOf bones) 0 (hg _ (rootBoneOf_mem bones h))).1
  rw [export_eq bones h, hroot]
  have hemp : ("" : String).data = ([] : List Char) := rfl
  congr 1
  show "HIERARCHY\n" ++ renderLines (hierLines (rootBoneOf bones) 0)
      ++ "MOTION\n" ++ "Frames: 1\n" ++ "Frame Time: 0.033333\n"
      ++ (jsTrim (joinStrs (bones.map motionGroup)) ++ "\n") = _
  apply String.ext
  simp [renderLines, renderLines_append, String.data_append, List.append_assoc, hemp]

theorem export_lines (bones : List BNode) (h : bones ≠ [])
    (hg : ∀ b ∈ bones, goodNames b = true) (d : String)
    (hd : exportToBVH bones = some d) :
    linesOfS d = "HIERARCHY" :: hierLines (rootBoneOf bones) 0
      ++ ["MOTION", "Frames: 1", "Frame Time: 0.033333",
          jsTrim (joinStrs (bones.map motionGroup)), ""] := by
  have hr := export_render bones h hg
  rw [hd] at hr
  have hdr := Option.some.inj hr
  rw [hdr, linesOf_render]
  · simp
  · intro s hs
    rcases List.mem_cons.mp hs with rfl | hs1
    · decide
    rcases List.mem_append.mp hs1 with hh | hs2
    · exact (build_render (rootBoneOf bones) 0 (hg _ (rootBoneOf_mem bones h))).2.1 s hh
    rcases List.mem_cons.mp hs2 with rfl | hs3
    · decide
    rcases List.mem_cons.mp hs3 with rfl | hs4
    · decide
    rcases List.mem_cons.mp hs4 with rfl | hs5
    · decide
    rcases List.mem_cons.mp hs5 with rfl | hs6
    · exact motion_noNl bones
    · exact absurd hs6 (List.not_mem_nil s)

/-! ## Stripped-line computations -/

theorem okNumCh_notO {c : Char} (h : okNumCh c = true) : (c == 'O') = false := by
  have h3 : isDigitCh c = true ∨ c = '-' ∨ c = '.' := by
    simp only [okNumCh, Bool.or_eq_true, beq_iff_eq] at h
    tauto
  rcases h3 with hd | rfl | rfl
  · rcases isDigitCh_elim hd with rfl | rfl | rfl | rfl | rfl | rfl | rfl | rfl | rfl | rfl <;> decide
  · decide
  · decide

theorem headIs_mem {t : Char} {l : List Char} (h : headIs t l = true) : t ∈ l := by
  cases l with
  | nil => simp [headIs] at h
  | cons c cs =>
    have : c = t := by simpa [headIs] using h
    simp [this]

theorem isPrefixL_false_of_head {c : Char} {ps l : List Char} (h : headIs c l = false) :
    isPrefixL (c :: ps) l = false := by
  cases hx : isPrefixL (c :: ps) l with
  | false => rfl
  | true => exact absurd (isPrefixL_head hx) (by simp [h])

theorem stripSpaces_data (s : String) :
    (stripSpaces s).data = s.data.dropWhile (fun c => c == ' ') := rfl

theorem dropSp_ind (n : Nat) (x : List Char) :
    ((strRepeat "  " n).data ++ x).dropWhile (fun c => c == ' ')
      = x.dropWhile (fun c => c == ' ') :=
  dropWhile_append_all x (fun c hc => List.all_eq_true.mp (strRepeat_sp n) c hc)

theorem dropSp_head {c : Char} (hc : (c == ' ') = false) (rest : List Char) :
    (c :: rest).dropWhile (fun c => c == ' ') = c :: rest := by
  simp [List.dropWhile_cons, hc]

theorem strip_ind (n : Nat) (x : String) :
    stripSpaces (strRepeat "  " n ++ x) = stripSpaces x := by
  unfold stripSpaces
  rw [String.data_append, dropSp_ind]

theorem strip_joint (n : Nat) (lbl : String) :
    (stripSpaces (strRepeat "  " n ++ "JOINT " ++ lbl)).data = "JOINT ".data ++ lbl.data := by
  rw [stripSpaces_data]
  rw [show (strRepeat "  " n ++ "JOINT " ++ lbl).data
      = (strRepeat "  " n).data ++ (("JOINT " : String).data ++ lbl.data) by
    simp [String.data_append, List.append_assoc]]
  rw [dropSp_ind]
  rw [show ("JOINT " : String).data ++ lbl.data
      = 'J' :: (("OINT " : String).data ++ lbl.data) from rfl]
  rw [dropSp_head (by decide)]

theorem strip_offset (n : Nat) (X : String) :
    (stripSpaces (strRepeat "  " n ++ ("  OFFSET " ++ X))).data
      = "OFFSET ".data ++ X.data := by
  rw [stripSpaces_data]
  rw [show (strRepeat "  " n ++ ("  OFFSET " ++ X)).data
      = (strRepeat "  " n).data ++ (' ' :: ' ' :: (("OFFSET " : String).data ++ X.data)) by
    simp [String.data_append, List.append_assoc]]
  rw [dropSp_ind]
  rw [show (' ' :: ' ' :: (("OFFSET " : String).data ++ X.data)).dropWhile (fun c => c == ' ')
      = (("OFFSET " : String).data ++ X.data).dropWhile (fun c => c == ' ') by
    simp [List.dropWhile_cons]]
  rw [show ("OFFSET " : String).data ++ X.data
      = 'O' :: (("FFSET " : String).data ++ X.data) from rfl]
  rw [dropSp_head (by decide)]

/-! ## Counting joint-header lines -/

theorem jointPred_eq (ln : String) :
    (isPrefixL "JOINT ".data (stripSpaces ln).data ||
      isPrefixL "ROOT ".data (stripSpaces ln).data) =
    (isPrefixL "JOINT ".data (stripSpaces ln).data ||
      isPrefixL "ROOT ".data (stripSpaces ln).data) := rfl

theorem count_append (xs ys : List String) :
    countJointLines (xs ++ ys) = countJointLines xs + countJointLines ys := by
  unfold countJointLines
  rw [List.filter_append, List.length_append]

theorem jp_head_false {s : String} (hJ : headIs 'J' (stripSpaces s).data = false)
    (hR : headIs 'R' (stripSpaces s).data = false) :
    (isPrefixL "JOINT ".data (stripSpaces s).data ||
      isPrefixL "ROOT ".data (stripSpaces s).data) = false := by
  rw [show ("JOINT " : String).data = 'J' :: ("OINT " : String).data from rfl,
    show ("ROOT " : String).data = 'R' :: ("OOT " : String).data from rfl,
    isPrefixL_false_of_head hJ, isPrefixL_false_of_head hR]
  rfl

theorem jp_joint_true (n : Nat) (lbl : String) :
    (isPrefixL "JOINT ".data (stripSpaces (strRepeat "  " n ++ "JOINT " ++ lbl)).data ||
      isPrefixL "ROOT ".data (stripSpaces (strRepeat "  " n ++ "JOINT " ++ lbl)).data) = true := by
  rw [strip_joint, isPrefixL_append_self]
  rfl

theorem jp_lit_false (n : Nat) (x : String)
    (hx : (isPrefixL "JOINT ".data (stripSpaces x).data ||
      isPrefixL "ROOT ".data (stripSpaces x).data) = false) :
    (isPrefixL "JOINT ".data (stripSpaces (strRepeat "  " n ++ x)).data ||
      isPrefixL "ROOT ".data (stripSpaces (strRepeat "  " n ++ x)).data) = false := by
  rw [strip_ind]
  exact hx

theorem jp_offset_false (n : Nat) (X : String) :
    (isPrefixL "JOINT ".data
        (stripSpaces (strRepeat "  " n ++ ("  OFFSET " ++ X))).data ||
      isPrefixL "ROOT ".data
        (stripSpaces (strRepeat "  " n ++ ("  OFFSET " ++ X))).data) = false := by
  apply jp_head_false
  · rw [strip_offset]
    rfl
  · rw [strip_offset]
    rfl

theorem dfsKids_nil {children : List BNode} (h : children.any BNode.isBone = false) :
    dfsKids children = [] := by
  induction children with
  | nil => rfl
  | cons c cs ih =>
    have h2 : c.isBone = false ∧ cs.any BNode.isBone = false := by
      simpa [List.any_cons, Bool.or_eq_false_iff] using h
    show (if c.isBone then dfsBones c else []) ++ dfsKids cs = []
    rw [h2.1, if_neg (by simp), List.nil_append, ih h2.2]

theorem str_assoc (a b c : String) : (a ++ b) ++ c = a ++ (b ++ c) := by
  apply String.ext
  simp [String.data_append]

theorem hierLines_any_true {id : Nat} {name : Option String} {p : ParentRef}
    {pos r : Vec3} {children : List BNode} (l : Nat)
    (hany : children.any BNode.isBone = true) :
    hierLines (.bone id name p pos r children) l
      = (strRepeat "  " l ++ "JOINT " ++ jsNameOr name ("Bone_" ++ natToStr id))
        :: (strRepeat "  " l ++ "\x7b")
        :: (strRepeat "  " l ++ ("  OFFSET " ++ (toFixed6 pos.x ++ (" " ++ (toFixed6 pos.y
            ++ (" " ++ toFixed6 pos.z))))))
        :: (strRepeat "  " l ++ "  CHANNELS 6 Xposition Yposition Zposition Xrotation Yrotation Zrotation")
        :: (hierKidsLines children (l + 1) ++ [strRepeat "  " l ++ "\x7d"]) := by
  simp only [hierLines, hany, if_true, List.cons_append, List.nil_append, str_assoc]

theorem hierLines_any_false {id : Nat} {name : Option String} {p : ParentRef}
    {pos r : Vec3} {children : List BNode} (l : Nat)
    (hany : children.any BNode.isBone = false) :
    hierLines (.bone id name p pos r children) l
      = (strRepeat "  " l ++ "JOINT " ++ jsNameOr name ("Bone_" ++ natToStr id))
        :: (strRepeat "  " l ++ "\x7b")
        :: (strRepeat "  " l ++ ("  OFFSET " ++ (toFixed6 pos.x ++ (" " ++ (toFixed6 pos.y
            ++ (" " ++ toFixed6 pos.z))))))
        :: (strRepeat "  " l ++ "  CHANNELS 6 Xposition Yposition Zposition Xrotation Yrotation Zrotation")
        :: (strRepeat "  " l ++ "  End Site")
        :: (strRepeat "  " l ++ "  \x7b")
        :: (strRepeat "  " l ++ "    OFFSET 0.0 0.0 0.0")
        :: (strRepeat "  " l ++ "  \x7d")
        :: [strRepeat "  " l ++ "\x7d"] := by
  simp only [hierLines, hany, List.cons_append, List.nil_append, str_assoc]
  simp

mutual

theorem countJoint_hier : ∀ (b : BNode) (l : Nat),
    countJointLines (hierLines b l) = (dfsBones b).length
  | .other, l => rfl
  | .bone id name p pos r children, l => by
    have hk := countJoint_kids children (l + 1)
    cases hany : children.any BNode.isBone with
    | true =>
      rw [hierLines_any_true l hany]
      unfold countJointLines
      unfold countJointLines at hk
      simp only [List.filter_cons, List.filter_append, List.filter_nil,
        jp_joint_true l (jsNameOr name ("Bone_" ++ natToStr id)),
        jp_lit_false l "\x7b" (by decide),
        jp_offset_false l (toFixed6 pos.x ++ (" " ++ (toFixed6 pos.y ++ (" " ++ toFixed6 pos.z)))),
        jp_lit_false l "  CHANNELS 6 Xposition Yposition Zposition Xrotation Yrotation Zrotation" (by decide),
        jp_lit_false l "\x7d" (by decide),
        if_true, if_false]
      simp only [dfsBones, List.length_cons, List.length_append]
      simp [hk]
    | false =>
      rw [hierLines_any_false l hany]
      unfold countJointLines
      simp only [List.filter_cons, List.filter_nil,
        jp_joint_true l (jsNameOr name ("Bone_" ++ natToStr id)),
        jp_lit_false l "\x7b" (by decide),
        jp_offset_false l (toFixed6 pos.x ++ (" " ++ (toFixed6 pos.y ++ (" " ++ toFixed6 pos.z)))),
        jp_lit_false l "  CHANNELS 6 Xposition Yposition Zposition Xrotation Yrotation Zrotation" (by decide),
        jp_lit_false l "  End Site" (by decide),
        jp_lit_false l "  \x7b" (by decide),
        jp_lit_false l "    OFFSET 0.0 0.0 0.0" (by decide),
        jp_lit_false l "  \x7d" (by decide),
        jp_lit_false l "\x7d" (by decide),
        if_true, if_false]
      simp [dfsBones, dfsKids_nil hany]

theorem countJoint_kids : ∀ (bs : List BNode) (l : Nat),
    countJointLines (hierKidsLines bs l) = (dfsKids bs).length
  | [], _ => rfl
  | c :: cs, l => by
    have hh := countJoint_hier c l
    have ht := countJoint_kids cs l
    cases hcb : c.isBone with
    | true =>
      show countJointLines ((if c.isBone then hierLines c l else []) ++ hierKidsLines cs l)
        = ((if c.isBone then dfsBones c else []) ++ dfsKids cs).length
      rw [hcb]
      simp only [if_true]
      rw [count_append, List.length_append, hh, ht]
    | false =>
      show countJointLines ((if c.isBone then hierLines c l else []) ++ hierKidsLines cs l)
        = ((if c.isBone then dfsBones c else []) ++ dfsKids cs).length
      rw [hcb]
      simp [ht]

end

/-! ## OFFSET-value and End-Site line facts -/

theorem offsetVals_nil_of_head {ln : String}
    (h : headIs 'O' (stripSpaces ln).data = false) : offsetVals ln = [] := by
  unfold offsetVals
  rw [show ("OFFSET " : String).data = 'O' :: ("FFSET " : String).data from rfl,
    isPrefixL_false_of_head h]
  simp

theorem offsetVals_ind (n : Nat) (x : String) :
    offsetVals (strRepeat "  " n ++ x) = offsetVals x := by
  unfold offsetVals
  rw [strip_ind]

theorem offsetVals_offset_line (n : Nat) (v1 v2 v3 : Int) :
    offsetVals (strRepeat "  " n
        ++ ("  OFFSET " ++ (toFixed6 v1 ++ (" " ++ (toFixed6 v2 ++ (" " ++ toFixed6 v3))))))
      = [toFixed6 v1, toFixed6 v2, toFixed6 v3] := by
  unfold offsetVals
  rw [show (stripSpaces (strRepeat "  " n
      ++ ("  OFFSET " ++ (toFixed6 v1 ++ (" " ++ (toFixed6 v2 ++ (" " ++ toFixed6 v3))))))).data
    = "OFFSET ".data ++ (toFixed6 v1 ++ (" " ++ (toFixed6 v2 ++ (" " ++ toFixed6 v3)))).data
    from strip_offset n _]
  rw [if_pos (by
    have := isPrefixL_append_self ("OFFSET ".data)
      ((toFixed6 v1 ++ (" " ++ (toFixed6 v2 ++ (" " ++ toFixed6 v3)))).data)
    simpa using this)]
  rw [List.drop_left' (by decide : ("OFFSET " : String).data.length = 7)]
  have hX : (toFixed6 v1 ++ (" " ++ (toFixed6 v2 ++ (" " ++ toFixed6 v3)))).data
      = (toFixed6 v1).data ++ ' ' :: ((toFixed6 v2).data ++ ' ' :: (toFixed6 v3).data) := by
    simp [String.data_append]
  unfold wsTokens
  rw [show (String.mk ((toFixed6 v1 ++ (" " ++ (toFixed6 v2 ++ (" " ++ toFixed6 v3)))).data)).data
      = (toFixed6 v1 ++ (" " ++ (toFixed6 v2 ++ (" " ++ toFixed6 v3)))).data from rfl]
  rw [hX, tok_step, tok_step, tokensOfL_last (toFixed6_ne_nil v3) (toFixed6_nonWs v3)]
  simp [mk_data_eq]

theorem esPred_of_head {ln : String}
    (h : headIs 'E' (stripSpaces ln).data = false) :
    decide (stripSpaces ln = "End Site") = false := by
  apply decide_eq_false
  intro he
  rw [he] at h
  exact absurd h (by decide)

theorem esPred_ind (n : Nat) (x : String) :
    decide (stripSpaces (strRepeat "  " n ++ x) = "End Site")
      = decide (stripSpaces x = "End Site") := by
  rw [strip_ind]

theorem esPred_joint (n : Nat) (lbl : String) :
    decide (stripSpaces (strRepeat "  " n ++ "JOINT " ++ lbl) = "End Site") = false := by
  apply esPred_of_head
  rw [strip_joint]
  rfl

theorem esPred_offset (n : Nat) (X : String) :
    decide (stripSpaces (strRepeat "  " n ++ ("  OFFSET " ++ X)) = "End Site") = false := by
  apply esPred_of_head
  rw [strip_offset]
  rfl

theorem offsetVals_joint (n : Nat) (lbl : String) :
    offsetVals (strRepeat "  " n ++ "JOINT " ++ lbl) = [] := by
  apply offsetVals_nil_of_head
  rw [strip_joint]
  rfl

/-! ## Filtered children -/

theorem filter_nil_iff_any (bs : List BNode) :
    bs.filter BNode.isBone = [] ↔ bs.any BNode.isBone = false := by
  rw [List.filter_eq_nil_iff, List.any_eq_false]

theorem buildChildren_filter : ∀ (bs : List BNode) (l : Nat),
    buildChildren bs l
      = joinStrs ((bs.filter BNode.isBone).map (fun c => buildBVHHierarchy c l)) := by
  intro bs
  induction bs with
  | nil => intro l; rfl
  | cons c cs ih =>
    intro l
    cases hcb : c.isBone with
    | true =>
      show (if c.isBone then buildBVHHierarchy c l else "") ++ buildChildren cs l = _
      rw [hcb, if_pos rfl, List.filter_cons_of_pos hcb, List.map_cons]
      show _ = buildBVHHierarchy c l ++ _
      rw [ih l]
    | false =>
      show (if c.isBone then buildBVHHierarchy c l else "") ++ buildChildren cs l = _
      rw [hcb, if_neg (by simp), str_empty_append, List.filter_cons_of_neg (by simp [hcb]), ih l]

/-! ## The first element found by a predicate -/

theorem find?_first {α : Type} (p : α → Bool) :
    ∀ (l : List α) (a : α), l.find? p = some a →
    ∃ i, ∃ hi : i < l.length, l.get ⟨i, hi⟩ = a ∧ p a = true ∧
      ∀ j (hj : j < l.length), j < i → p (l.get ⟨j, hj⟩) = false := by
  intro l
  induction l with
  | nil => intro a h; simp [List.find?] at h
  | cons x xs ih =>
    intro a h
    cases hx : p x with
    | true =>
      rw [List.find?_cons_of_pos _ hx] at h
      have hxa : x = a := Option.some.inj h
      refine ⟨0, by simp, by simp [hxa], by rw [← hxa]; exact hx, ?_⟩
      intro j hj hj0
      omega
    | false =>
      rw [List.find?_cons_of_neg _ (by simp [hx])] at h
      obtain ⟨i, hi, hget, hpa, hprev⟩ := ih a h
      refine ⟨i + 1, by simpa using hi, by simpa using hget, hpa, ?_⟩
      intro j hj hj0
      cases j with
      | zero => simpa using hx
      | succ k =>
        have hk : k < xs.length := by simpa using hj
        have := hprev k hk (by omega)
        simpa using this

theorem rootBoneCandidate_iff (b : BNode) :
    rootBoneCandidate b = true ↔ (b.parent = ParentRef.null ∨ b.parent = ParentRef.nonBone) := by
  unfold rootBoneCandidate
  cases b.parent <;> simp

/-! ## Per-line OFFSET formatting over the hierarchy block -/

mutual

theorem c3_hier : ∀ (b : BNode) (l : Nat), ∀ ln ∈ hierLines b l,
    (offsetVals ln).all sixDecimalsB = true ∨ stripSpaces ln = "OFFSET 0.0 0.0 0.0"
  | .other, l => by simp [hierLines]
  | .bone id name p pos r children, l => by
    cases hany : children.any BNode.isBone with
    | true =>
      rw [hierLines_any_true l hany]
      intro ln hln
      rcases List.mem_cons.mp hln with rfl | h1
      · left
        rw [offsetVals_joint]
        rfl
      rcases List.mem_cons.mp h1 with rfl | h2
      · left
        rw [offsetVals_ind]
        decide
      rcases List.mem_cons.mp h2 with rfl | h3
      · left
        rw [offsetVals_offset_line]
        simp [sixDecimals_toFixed6]
      rcases List.mem_cons.mp h3 with rfl | h4
      · left
        rw [offsetVals_ind]
        decide
      rcases List.mem_append.mp h4 with h5 | h6
      · exact c3_kids children (l + 1) ln h5
      · have : ln = strRepeat "  " l ++ "\x7d" := List.mem_singleton.mp h6
        subst this
        left
        rw [offsetVals_ind]
        decide
    | false =>
      rw [hierLines_any_false l hany]
      intro ln hln
      rcases List.mem_cons.mp hln with rfl | h1
      · left
        rw [offsetVals_joint]
        rfl
      rcases List.mem_cons.mp h1 with rfl | h2
      · left
        rw [offsetVals_ind]
        decide
      rcases List.mem_cons.mp h2 with rfl | h3
      · left
        rw [offsetVals_offset_line]
        simp [sixDecimals_toFixed6]
      rcases List.mem_cons.mp h3 with rfl | h4
      · left
        rw [offsetVals_ind]
        decide
      rcases List.mem_cons.mp h4 with rfl | h5
      · left
        rw [offsetVals_ind]
        decide
      rcases List.mem_cons.mp h5 with rfl | h6
      · left
        rw [offsetVals_ind]
        decide
      rcases List.mem_cons.mp h6 with rfl | h7
      · right
        rw [strip_ind]
        decide
      rcases List.mem_cons.mp h7 with rfl | h8
      · left
        rw [offsetVals_ind]
        decide
      have : ln = strRepeat "  " l ++ "\x7d" := List.mem_singleton.mp h8
      subst this
      left
      rw [offsetVals_ind]
      decide

theorem c3_kids : ∀ (bs : List BNode) (l : Nat), ∀ ln ∈ hierKidsLines bs l,
    (offsetVals ln).all sixDecimalsB = true ∨ stripSpaces ln = "OFFSET 0.0 0.0 0.0"
  | [], l => by simp [hierKidsLines]
  | c :: cs, l => by
    intro ln hln
    have hsplit : ln ∈ (if c.isBone then hierLines c l else []) ∨ ln ∈ hierKidsLines cs l := by
      exact List.mem_append.mp (by simpa [hierKidsLines] using hln)
    rcases hsplit with h1 | h2
    · cases hcb : c.isBone with
      | true =>
        refine c3_hier c l ln ?_
        rw [hcb] at h1
        simpa using h1
      | false =>
        rw [hcb] at h1
        simp at h1
    · exact c3_kids cs l ln h2

end

theorem motion_no_joint (bones : List BNode) :
    (isPrefixL "JOINT ".data
        (stripSpaces (jsTrim (joinStrs (bones.map motionGroup)))).data ||
      isPrefixL "ROOT ".data
        (stripSpaces (jsTrim (joinStrs (bones.map motionGroup)))).data) = false := by
  have hchar : ∀ (t : Char), t ∈ (stripSpaces (jsTrim (joinStrs (bones.map motionGroup)))).data →
      (okNumCh t || t == ' ') = true := by
    intro t ht
    have h1 : t ∈ (jsTrim (joinStrs (bones.map motionGroup))).data := by
      rw [stripSpaces_data] at ht
      exact (List.dropWhile_sublist _).mem ht
    have h2 : t ∈ (joinStrs (bones.map motionGroup)).data := trim_subset _ t h1
    exact List.all_eq_true.mp (motion_chars bones) t h2
  apply jp_head_false
  · cases hh : headIs 'J' (stripSpaces (jsTrim (joinStrs (bones.map motionGroup)))).data with
    | false => rfl
    | true => exact absurd (hchar 'J' (headIs_mem hh)) (by decide)
  · cases hh : headIs 'R' (stripSpaces (jsTrim (joinStrs (bones.map motionGroup)))).data with
    | false => rfl
    | true => exact absurd (hchar 'R' (headIs_mem hh)) (by decide)

theorem motion_no_offset (bones : List BNode) :
    offsetVals (jsTrim (joinStrs (bones.map motionGroup))) = [] := by
  have hchar : ∀ (t : Char), t ∈ (stripSpaces (jsTrim (joinStrs (bones.map motionGroup)))).data →
      (okNumCh t || t == ' ') = true := by
    intro t ht
    have h1 : t ∈ (jsTrim (joinStrs (bones.map motionGroup))).data := by
      rw [stripSpaces_data] at ht
      exact (List.dropWhile_sublist _).mem ht
    exact List.all_eq_true.mp (motion_chars bones) t (trim_subset _ t h1)
  apply offsetVals_nil_of_head
  cases hh : headIs 'O' (stripSpaces (jsTrim (joinStrs (bones.map motionGroup)))).data with
  | false => rfl
  | true => exact absurd (hchar 'O' (headIs_mem hh)) (by decide)

/-! ## The claims -/

/-- C1: the claim states that for every non-empty bone set the document's
second line begins with "ROOT " because the "HIERARCHY\nJOINT" →
"HIERARCHY\nROOT" rewrite is applied exactly once.  The code applies that
rewrite inside `buildBVHHierarchy`, to a string that never contains
"HIERARCHY", so it never fires: at the one-bone input below the second
line of the exported document is "JOINT Hips" — it begins with "JOINT ",
not "ROOT ". -/
theorem c1_root_rewrite_never_fires :
    (exportToBVH [BNode.bone 1 (some "Hips") ParentRef.null ⟨0, 0, 0⟩ ⟨0, 0, 0⟩ []]).map
        (fun d => (linesOfS d).getD 1 "") = some "JOINT Hips"
    ∧ isPrefixL "ROOT ".data ("JOINT Hips" : String).data = false
    ∧ isPrefixL "JOINT ".data ("JOINT Hips" : String).data = true := by
  decide

/-- C2 counterexample: with the bone set `[B, A]` where `A` is the selected
root and `B` its child, the hierarchy-traversal joint order is `A, B`, yet
the first group of six motion values is `B`'s (bone-set order), not `A`'s:
the Nth group does not belong to the Nth joint of the hierarchy. -/
theorem c2_group_order_counterexample :
    ((wsTokens (buildBVHMotion
        [BNode.bone 2 (some "B") ParentRef.boneParent ⟨1000000, 0, 0⟩ ⟨0, 0, 0⟩ [],
         BNode.bone 1 (some "A") ParentRef.null ⟨0, 0, 0⟩ ⟨0, 0, 0⟩
           [BNode.bone 2 (some "B") ParentRef.boneParent ⟨1000000, 0, 0⟩ ⟨0, 0, 0⟩ []]])).take 6
      = motionGroupToks ((dfsBones (rootBoneOf
        [BNode.bone 2 (some "B") ParentRef.boneParent ⟨1000000, 0, 0⟩ ⟨0, 0, 0⟩ [],
         BNode.bone 1 (some "A") ParentRef.null ⟨0, 0, 0⟩ ⟨0, 0, 0⟩
           [BNode.bone 2 (some "B") ParentRef.boneParent ⟨1000000, 0, 0⟩ ⟨0, 0, 0⟩ []]])).getD 1 BNode.other))
    ∧ ((wsTokens (buildBVHMotion
        [BNode.bone 2 (some "B") ParentRef.boneParent ⟨1000000, 0, 0⟩ ⟨0, 0, 0⟩ [],
         BNode.bone 1 (some "A") ParentRef.null ⟨0, 0, 0⟩ ⟨0, 0, 0⟩
           [BNode.bone 2 (some "B") ParentRef.boneParent ⟨1000000, 0, 0⟩ ⟨0, 0, 0⟩ []]])).take 6
      ≠ motionGroupToks ((dfsBones (rootBoneOf
        [BNode.bone 2 (some "B") ParentRef.boneParent ⟨1000000, 0, 0⟩ ⟨0, 0, 0⟩ [],
         BNode.bone 1 (some "A") ParentRef.null ⟨0, 0, 0⟩ ⟨0, 0, 0⟩
           [BNode.bone 2 (some "B") ParentRef.boneParent ⟨1000000, 0, 0⟩ ⟨0, 0, 0⟩ []]])).getD 0 BNode.other)) := by
  decide

/-- C2 (amended): the motion line has exactly 6 × (number of bones)
space-separated numeric tokens, and the Nth group of six (position x,y,z
then rotation x,y,z) is the serialized channel values of the Nth bone in
bone-set order.  This coincides with the hierarchy's Nth joint only when
bone-set order equals the depth-first traversal order. -/
theorem c2_motion_groups (bones : List BNode) :
    (wsTokens (buildBVHMotion bones)).length = 6 * bones.length ∧
    ∀ (i : Nat) (hi : i < bones.length),
      ((wsTokens (buildBVHMotion bones)).drop (6 * i)).take 6
        = motionGroupToks (bones.get ⟨i, hi⟩) :=
  ⟨motion_token_count bones, fun i hi => motion_group_at bones i hi⟩

theorem c2_motion_groups_witness :
    (wsTokens (buildBVHMotion
        [BNode.bone 1 none ParentRef.null ⟨1000000, 0, 0⟩ ⟨0, 0, 0⟩ []])).length = 6 * 1 ∧
    ((wsTokens (buildBVHMotion
        [BNode.bone 1 none ParentRef.null ⟨1000000, 0, 0⟩ ⟨0, 0, 0⟩ []])).drop (6 * 0)).take 6
      = motionGroupToks ([BNode.bone 1 none ParentRef.null ⟨1000000, 0, 0⟩ ⟨0, 0, 0⟩ []].get
          ⟨0, by decide⟩) :=
  ⟨(c2_motion_groups _).1, (c2_motion_groups _).2 0 (by decide)⟩

/-- C3 counterexample: the exported document of a one-bone set contains the
End Site offset line "    OFFSET 0.0 0.0 0.0", whose values "0.0" are not
formatted with six digits after the decimal point. -/
theorem c3_end_site_decimals_counterexample :
    (exportToBVH [BNode.bone 1 (some "Hips") ParentRef.null ⟨0, 0, 0⟩ ⟨0, 0, 0⟩ []]).map
        (fun d => (linesOfS d).getD 7 "") = some "    OFFSET 0.0 0.0 0.0"
    ∧ offsetVals "    OFFSET 0.0 0.0 0.0" = ["0.0", "0.0", "0.0"]
    ∧ sixDecimalsB "0.0" = false := by
  decide

/-- C3 (amended): every OFFSET value of a joint line and every motion value
is fixed-point with exactly six digits after the decimal point; the only
exception is the End Site offset lines, which are the literal
"OFFSET 0.0 0.0 0.0" (one digit after the point). -/
theorem c3_offset_six_decimals (bones : List BNode) (h : bones ≠ [])
    (hg : ∀ b ∈ bones, goodNames b = true) (d : String)
    (hd : exportToBVH bones = some d) :
    (∀ ln ∈ linesOfS d,
      (offsetVals ln).all sixDecimalsB = true ∨ stripSpaces ln = "OFFSET 0.0 0.0 0.0")
    ∧ ∀ t ∈ wsTokens (buildBVHMotion bones), sixDecimalsB t = true := by
  constructor
  · rw [export_lines bones h hg d hd]
    intro ln hln
    rcases List.mem_cons.mp hln with rfl | h1
    · left
      decide
    rcases List.mem_append.mp h1 with h2 | h3
    · exact c3_hier (rootBoneOf bones) 0 ln h2
    rcases List.mem_cons.mp h3 with rfl | h4
    · left
      decide
    rcases List.mem_cons.mp h4 with rfl | h5
    · left
      decide
    rcases List.mem_cons.mp h5 with rfl | h6
    · left
      decide
    rcases List.mem_cons.mp h6 with rfl | h7
    · left
      rw [motion_no_offset]
      rfl
    have : ln = "" := List.mem_singleton.mp h7
    subst this
    left
    decide
  · intro t ht
    rw [motion_wsTokens] at ht
    obtain ⟨g, hgmem, htg⟩ := List.mem_flatten.mp ht
    obtain ⟨b, _, rfl⟩ := List.mem_map.mp hgmem
    simp only [motionGroupToks, List.mem_cons, List.not_mem_nil, or_false] at htg
    rcases htg with rfl | rfl | rfl | rfl | rfl | rfl <;> exact sixDecimals_toFixed6 _

theorem c3_offset_six_decimals_witness :
    ((offsetVals "  OFFSET 1.000000 0.000000 0.000000").all sixDecimalsB = true
      ∨ stripSpaces "  OFFSET 1.000000 0.000000 0.000000" = "OFFSET 0.0 0.0 0.0")
    ∧ sixDecimalsB "1.000000" = true :=
  ⟨(c3_offset_six_decimals
      [BNode.bone 1 (some "Hips") ParentRef.null ⟨1000000, 0, 0⟩ ⟨0, 0, 0⟩ []]
      (by simp) (by decide)
      "HIERARCHY\nJOINT Hips\n\x7b\n  OFFSET 1.000000 0.000000 0.000000\n  CHANNELS 6 Xposition Yposition Zposition Xrotation Yrotation Zrotation\n  End Site\n  \x7b\n    OFFSET 0.0 0.0 0.0\n  \x7d\n\x7d\nMOTION\nFrames: 1\nFrame Time: 0.033333\n1.000000 0.000000 0.000000 0.000000 0.000000 0.000000\n"
      (by decide)).1 "  OFFSET 1.000000 0.000000 0.000000" (by decide),
   (c3_offset_six_decimals
      [BNode.bone 1 (some "Hips") ParentRef.null ⟨1000000, 0, 0⟩ ⟨0, 0, 0⟩ []]
      (by simp) (by decide)
      "HIERARCHY\nJOINT Hips\n\x7b\n  OFFSET 1.000000 0.000000 0.000000\n  CHANNELS 6 Xposition Yposition Zposition Xrotation Yrotation Zrotation\n  End Site\n  \x7b\n    OFFSET 0.0 0.0 0.0\n  \x7d\n\x7d\nMOTION\nFrames: 1\nFrame Time: 0.033333\n1.000000 0.000000 0.000000 0.000000 0.000000 0.000000\n"
      (by decide)).2 "1.000000" (by decide)⟩

/-- C4: the exported document is exactly the literal line "HIERARCHY", the
hierarchy block of the selected root, then the literal lines "MOTION",
"Frames: 1", "Frame Time: 0.033333", and the single motion line — nothing
else. -/
theorem c4_document_structure (bones : List BNode) (h : bones ≠ [])
    (hg : ∀ b ∈ bones, goodNames b = true) :
    exportToBVH bones
      = some ("HIERARCHY\n" ++ buildBVHHierarchy (rootBoneOf bones) 0
          ++ "MOTION\n" ++ "Frames: 1\n" ++ "Frame Time: 0.033333\n" ++ buildBVHMotion bones)
    ∧ ∀ d, exportToBVH bones = some d →
        linesOfS d = "HIERARCHY" :: hierLines (rootBoneOf bones) 0
          ++ ["MOTION", "Frames: 1", "Frame Time: 0.033333",
              jsTrim (joinStrs (bones.map motionGroup)), ""] :=
  ⟨export_eq bones h, fun d hd => export_lines bones h hg d hd⟩

theorem c4_document_structure_witness :
    exportToBVH [BNode.bone 1 (some "Hips") ParentRef.null ⟨0, 0, 0⟩ ⟨0, 0, 0⟩ []]
      = some ("HIERARCHY\n"
          ++ buildBVHHierarchy
              (rootBoneOf [BNode.bone 1 (some "Hips") ParentRef.null ⟨0, 0, 0⟩ ⟨0, 0, 0⟩ []]) 0
          ++ "MOTION\n" ++ "Frames: 1\n" ++ "Frame Time: 0.033333\n"
          ++ buildBVHMotion [BNode.bone 1 (some "Hips") ParentRef.null ⟨0, 0, 0⟩ ⟨0, 0, 0⟩ []])
    ∧ linesOfS "HIERARCHY\nJOINT Hips\n\x7b\n  OFFSET 0.000000 0.000000 0.000000\n  CHANNELS 6 Xposition Yposition Zposition Xrotation Yrotation Zrotation\n  End Site\n  \x7b\n    OFFSET 0.0 0.0 0.0\n  \x7d\n\x7d\nMOTION\nFrames: 1\nFrame Time: 0.033333\n0.000000 0.000000 0.000000 0.000000 0.000000 0.000000\n"
      = "HIERARCHY" :: hierLines
          (rootBoneOf [BNode.bone 1 (some "Hips") ParentRef.null ⟨0, 0, 0⟩ ⟨0, 0, 0⟩ []]) 0
        ++ ["MOTION", "Frames: 1", "Frame Time: 0.033333",
            jsTrim (joinStrs ([BNode.bone 1 (some "Hips") ParentRef.null ⟨0, 0, 0⟩ ⟨0, 0, 0⟩ []].map motionGroup)), ""] :=
  ⟨(c4_document_structure [BNode.bone 1 (some "Hips") ParentRef.null ⟨0, 0, 0⟩ ⟨0, 0, 0⟩ []]
      (by simp) (by decide)).1,
   (c4_document_structure [BNode.bone 1 (some "Hips") ParentRef.null ⟨0, 0, 0⟩ ⟨0, 0, 0⟩ []]
      (by simp) (by decide)).2
     "HIERARCHY\nJOINT Hips\n\x7b\n  OFFSET 0.000000 0.000000 0.000000\n  CHANNELS 6 Xposition Yposition Zposition Xrotation Yrotation Zrotation\n  End Site\n  \x7b\n    OFFSET 0.0 0.0 0.0\n  \x7d\n\x7d\nMOTION\nFrames: 1\nFrame Time: 0.033333\n0.000000 0.000000 0.000000 0.000000 0.000000 0.000000\n"
     (by decide)⟩

/-- C5: an empty bone set is a silent no-op — no document is produced and
no download is triggered (modelled by the `none` result). -/
theorem c5_empty_no_export : exportToBVH ([] : List BNode) = none := rfl

/-- C6: the selected root is the first bone in bone-set order whose parent
is absent or not itself a bone; if no bone qualifies, it is the first bone
of the set. -/
theorem c6_root_selection (bones : List BNode) (_h : bones ≠ []) :
    (∃ i, ∃ hi : i < bones.length,
      rootBoneOf bones = bones.get ⟨i, hi⟩ ∧
      ((bones.get ⟨i, hi⟩).parent = ParentRef.null ∨
        (bones.get ⟨i, hi⟩).parent = ParentRef.nonBone) ∧
      ∀ j (hj : j < bones.length), j < i →
        ¬((bones.get ⟨j, hj⟩).parent = ParentRef.null ∨
          (bones.get ⟨j, hj⟩).parent = ParentRef.nonBone))
    ∨ ((∀ b ∈ bones, ¬(b.parent = ParentRef.null ∨ b.parent = ParentRef.nonBone)) ∧
      rootBoneOf bones = bones.headI) := by
  cases hf : bones.find? rootBoneCandidate with
  | some a =>
    left
    obtain ⟨i, hi, hget, hpa, hprev⟩ := find?_first rootBoneCandidate bones a hf
    refine ⟨i, hi, ?_, ?_, ?_⟩
    · unfold rootBoneOf
      rw [hf, Option.getD_some, hget]
    · rw [hget]
      exact (rootBoneCandidate_iff a).mp hpa
    · intro j hj hjlt hcon
      have h1 := (rootBoneCandidate_iff (bones.get ⟨j, hj⟩)).mpr hcon
      rw [hprev j hj hjlt] at h1
      exact Bool.false_ne_true h1
  | none =>
    right
    constructor
    · intro b hb hcon
      have hnone := List.find?_eq_none.mp hf b hb
      exact hnone ((rootBoneCandidate_iff b).mpr hcon)
    · unfold rootBoneOf
      rw [hf, Option.getD_none]

theorem c6_root_selection_witness :
    (∃ i, ∃ hi : i < ([BNode.bone 2 (some "B") ParentRef.boneParent ⟨0, 0, 0⟩ ⟨0, 0, 0⟩ [],
        BNode.bone 1 (some "A") ParentRef.null ⟨0, 0, 0⟩ ⟨0, 0, 0⟩ []] : List BNode).length,
      rootBoneOf [BNode.bone 2 (some "B") ParentRef.boneParent ⟨0, 0, 0⟩ ⟨0, 0, 0⟩ [],
          BNode.bone 1 (some "A") ParentRef.null ⟨0, 0, 0⟩ ⟨0, 0, 0⟩ []]
        = [BNode.bone 2 (some "B") ParentRef.boneParent ⟨0, 0, 0⟩ ⟨0, 0, 0⟩ [],
           BNode.bone 1 (some "A") ParentRef.null ⟨0, 0, 0⟩ ⟨0, 0, 0⟩ []].get ⟨i, hi⟩ ∧
      (([BNode.bone 2 (some "B") ParentRef.boneParent ⟨0, 0, 0⟩ ⟨0, 0, 0⟩ [],
         BNode.bone 1 (some "A") ParentRef.null ⟨0, 0, 0⟩ ⟨0, 0, 0⟩ []].get ⟨i, hi⟩).parent
          = ParentRef.null ∨
        ([BNode.bone 2 (some "B") ParentRef.boneParent ⟨0, 0, 0⟩ ⟨0, 0, 0⟩ [],
          BNode.bone 1 (some "A") ParentRef.null ⟨0, 0, 0⟩ ⟨0, 0, 0⟩ []].get ⟨i, hi⟩).parent
          = ParentRef.nonBone) ∧
      ∀ j (hj : j < ([BNode.bone 2 (some "B") ParentRef.boneParent ⟨0, 0, 0⟩ ⟨0, 0, 0⟩ [],
          BNode.bone 1 (some "A") ParentRef.null ⟨0, 0, 0⟩ ⟨0, 0, 0⟩ []] : List BNode).length),
        j < i →
        ¬(([BNode.bone 2 (some "B") ParentRef.boneParent ⟨0, 0, 0⟩ ⟨0, 0, 0⟩ [],
            BNode.bone 1 (some "A") ParentRef.null ⟨0, 0, 0⟩ ⟨0, 0, 0⟩ []].get ⟨j, hj⟩).parent
            = ParentRef.null ∨
          ([BNode.bone 2 (some "B") ParentRef.boneParent ⟨0, 0, 0⟩ ⟨0, 0, 0⟩ [],
            BNode.bone 1 (some "A") ParentRef.null ⟨0, 0, 0⟩ ⟨0, 0, 0⟩ []].get ⟨j, hj⟩).parent
            = ParentRef.nonBone))
    ∨ ((∀ b ∈ [BNode.bone 2 (some "B") ParentRef.boneParent ⟨0, 0, 0⟩ ⟨0, 0, 0⟩ [],
          BNode.bone 1 (some "A") ParentRef.null ⟨0, 0, 0⟩ ⟨0, 0, 0⟩ []],
        ¬(b.parent = ParentRef.null ∨ b.parent = ParentRef.nonBone)) ∧
      rootBoneOf [BNode.bone 2 (some "B") ParentRef.boneParent ⟨0, 0, 0⟩ ⟨0, 0, 0⟩ [],
          BNode.bone 1 (some "A") ParentRef.null ⟨0, 0, 0⟩ ⟨0, 0, 0⟩ []]
        = [BNode.bone 2 (some "B") ParentRef.boneParent ⟨0, 0, 0⟩ ⟨0, 0, 0⟩ [],
           BNode.bone 1 (some "A") ParentRef.null ⟨0, 0, 0⟩ ⟨0, 0, 0⟩ []].headI) :=
  c6_root_selection _ (by simp)

/-- C7: a joint whose bone has no bone-typed children closes with exactly
one End Site sub-block whose offset line is "OFFSET 0.0 0.0 0.0"; a joint
with bone children has no End Site block of its own and contains one
nested joint block per bone child, in the children's existing order. -/
theorem c7_leaf_end_site (id : Nat) (name : Option String) (p : ParentRef)
    (pos r : Vec3) (children : List BNode) (l : Nat)
    (h : goodNames (.bone id name p pos r children) = true) :
    (children.filter BNode.isBone = [] →
      buildBVHHierarchy (.bone id name p pos r children) l
        = renderLines
            [strRepeat "  " l ++ "JOINT " ++ jsNameOr name ("Bone_" ++ natToStr id),
             strRepeat "  " l ++ "\x7b",
             strRepeat "  " l ++ ("  OFFSET " ++ (toFixed6 pos.x ++ (" " ++ (toFixed6 pos.y
               ++ (" " ++ toFixed6 pos.z))))),
             strRepeat "  " l ++ "  CHANNELS 6 Xposition Yposition Zposition Xrotation Yrotation Zrotation",
             strRepeat "  " l ++ "  End Site",
             strRepeat "  " l ++ "  \x7b",
             strRepeat "  " l ++ "    OFFSET 0.0 0.0 0.0",
             strRepeat "  " l ++ "  \x7d",
             strRepeat "  " l ++ "\x7d"]
      ∧ endSiteLineCount (linesOfS (buildBVHHierarchy (.bone id name p pos r children) l)) = 1)
    ∧ (children.filter BNode.isBone ≠ [] →
      buildBVHHierarchy (.bone id name p pos r children) l
        = renderLines
            [strRepeat "  " l ++ "JOINT " ++ jsNameOr name ("Bone_" ++ natToStr id),
             strRepeat "  " l ++ "\x7b",
             strRepeat "  " l ++ ("  OFFSET " ++ (toFixed6 pos.x ++ (" " ++ (toFixed6 pos.y
               ++ (" " ++ toFixed6 pos.z))))),
             strRepeat "  " l ++ "  CHANNELS 6 Xposition Yposition Zposition Xrotation Yrotation Zrotation"]
          ++ joinStrs ((children.filter BNode.isBone).map (fun c => buildBVHHierarchy c (l + 1)))
          ++ renderLines [strRepeat "  " l ++ "\x7d"]
      ∧ endSiteLineCount
          [strRepeat "  " l ++ "JOINT " ++ jsNameOr name ("Bone_" ++ natToStr id),
           strRepeat "  " l ++ "\x7b",
           strRepeat "  " l ++ ("  OFFSET " ++ (toFixed6 pos.x ++ (" " ++ (toFixed6 pos.y
             ++ (" " ++ toFixed6 pos.z))))),
           strRepeat "  " l ++ "  CHANNELS 6 Xposition Yposition Zposition Xrotation Yrotation Zrotation",
           strRepeat "  " l ++ "\x7d"] = 0) := by
  have hb := build_render (.bone id name p pos r children) l h
  have eb : decide (stripSpaces "\x7b" = "End Site") = false := by decide
  have ech : decide (stripSpaces "  CHANNELS 6 Xposition Yposition Zposition Xrotation Yrotation Zrotation" = "End Site") = false := by decide
  have ee1 : decide (stripSpaces "  End Site" = "End Site") = true := by decide
  have ee2 : decide (stripSpaces "  \x7b" = "End Site") = false := by decide
  have ee3 : decide (stripSpaces "    OFFSET 0.0 0.0 0.0" = "End Site") = false := by decide
  have ee4 : decide (stripSpaces "  \x7d" = "End Site") = false := by decide
  have ecl : decide (stripSpaces "\x7d" = "End Site") = false := by decide
  have eempty : decide (stripSpaces "" = "End Site") = false := by decide
  constructor
  · intro hfilter
    have hany : children.any BNode.isBone = false := (filter_nil_iff_any children).mp hfilter
    have hshape := @hierLines_any_false id name p pos r children l hany
    constructor
    · rw [hb.1, hshape]
    · rw [hb.1, hshape]
      rw [linesOf_render _ (by rw [← hshape]; exact hb.2.1)]
      unfold endSiteLineCount
      simp only [List.cons_append, List.nil_append, List.filter_cons, List.filter_nil,
        esPred_joint, esPred_offset, esPred_ind, eb, ech, ee1, ee2, ee3, ee4, ecl, eempty,
        if_true, if_false]
      rfl
  · intro hfilter
    have hany : children.any BNode.isBone = true := by
      cases hx : children.any BNode.isBone with
      | true => rfl
      | false => exact absurd ((filter_nil_iff_any children).mpr hx) hfilter
    have hGN : goodNamesList children = true := by
      have := (by simpa [goodNames, Bool.and_eq_true] using h :
        noNl (jsNameOr name ("Bone_" ++ natToStr id)) = true ∧ goodNamesList children = true)
      exact this.2
    have hkids := build_render_kids children (l + 1) hGN
    have hshape := @hierLines_any_true id name p pos r children l hany
    constructor
    · rw [hb.1, hshape]
      rw [show ((strRepeat "  " l ++ "JOINT " ++ jsNameOr name ("Bone_" ++ natToStr id))
          :: (strRepeat "  " l ++ "\x7b")
          :: (strRepeat "  " l ++ ("  OFFSET " ++ (toFixed6 pos.x ++ (" " ++ (toFixed6 pos.y
              ++ (" " ++ toFixed6 pos.z))))))
          :: (strRepeat "  " l ++ "  CHANNELS 6 Xposition Yposition Zposition Xrotation Yrotation Zrotation")
          :: (hierKidsLines children (l + 1) ++ [strRepeat "  " l ++ "\x7d"]))
        = [strRepeat "  " l ++ "JOINT " ++ jsNameOr name ("Bone_" ++ natToStr id),
           strRepeat "  " l ++ "\x7b",
           strRepeat "  " l ++ ("  OFFSET " ++ (toFixed6 pos.x ++ (" " ++ (toFixed6 pos.y
             ++ (" " ++ toFixed6 pos.z))))),
           strRepeat "  " l ++ "  CHANNELS 6 Xposition Yposition Zposition Xrotation Yrotation Zrotation"]
          ++ (hierKidsLines children (l + 1) ++ [strRepeat "  " l ++ "\x7d"]) by simp]
      rw [renderLines_append, renderLines_append]
      rw [← hkids.1, buildChildren_filter]
      exact (str_assoc _ _ _).symm
    · unfold endSiteLineCount
      simp only [List.filter_cons, List.filter_nil,
        esPred_joint, esPred_offset, esPred_ind, eb, ech, ecl, if_true, if_false]
      rfl

theorem c7_leaf_end_site_witness :
    buildBVHHierarchy (.bone 1 (some "A") ParentRef.null ⟨0, 0, 0⟩ ⟨0, 0, 0⟩ []) 0
      = renderLines
          [strRepeat "  " 0 ++ "JOINT " ++ jsNameOr (some "A") ("Bone_" ++ natToStr 1),
           strRepeat "  " 0 ++ "\x7b",
           strRepeat "  " 0 ++ ("  OFFSET " ++ (toFixed6 (0 : Int) ++ (" " ++ (toFixed6 (0 : Int)
             ++ (" " ++ toFixed6 (0 : Int)))))),
           strRepeat "  " 0 ++ "  CHANNELS 6 Xposition Yposition Zposition Xrotation Yrotation Zrotation",
           strRepeat "  " 0 ++ "  End Site",
           strRepeat "  " 0 ++ "  \x7b",
           strRepeat "  " 0 ++ "    OFFSET 0.0 0.0 0.0",
           strRepeat "  " 0 ++ "  \x7d",
           strRepeat "  " 0 ++ "\x7d"]
    ∧ endSiteLineCount
        (linesOfS (buildBVHHierarchy (.bone 1 (some "A") ParentRef.null ⟨0, 0, 0⟩ ⟨0, 0, 0⟩ []) 0))
      = 1 :=
  (c7_leaf_end_site 1 (some "A") ParentRef.null ⟨0, 0, 0⟩ ⟨0, 0, 0⟩ [] 0 (by decide)).1 rfl

/-- C8: on any non-empty bone set the export terminates and produces a
document; in the embedding the bone forest is a finite inductive tree, so
the hierarchy recursion is structural and `exportToBVH` is a total
function of the bone set and pose. -/
theorem c8_export_total (bones : List BNode) (h : bones ≠ []) :
    ∃ d, exportToBVH bones = some d :=
  ⟨_, export_eq bones h⟩

theorem c8_export_total_witness :
    ∃ d, exportToBVH [BNode.bone 1 (some "Hips") ParentRef.null ⟨0, 0, 0⟩ ⟨0, 0, 0⟩ []] = some d :=
  c8_export_total _ (by simp)

/-- C9: the joint header of a bone uses the synthetic label
"Bone_(id)" exactly when the name is absent or the empty string (both
falsy in JavaScript), and the bone's own name exactly when it is a
non-empty string. -/
theorem c9_name_fallback (id : Nat) (name : Option String) (p : ParentRef)
    (pos r : Vec3) (children : List BNode) (l : Nat)
    (h : goodNames (.bone id name p pos r children) = true) :
    (linesOfS (buildBVHHierarchy (.bone id name p pos r children) l)).head?
      = some (strRepeat "  " l ++ "JOINT " ++ jsNameOr name ("Bone_" ++ natToStr id))
    ∧ ((name = none ∨ name = some "") →
        jsNameOr name ("Bone_" ++ natToStr id) = "Bone_" ++ natToStr id)
    ∧ (∀ s, name = some s → ¬(s = "") → jsNameOr name ("Bone_" ++ natToStr id) = s) := by
  have hb := build_render (.bone id name p pos r children) l h
  refine ⟨?_, ?_, ?_⟩
  · rw [hb.1]
    cases hany : children.any BNode.isBone with
    | true =>
      have hshape := @hierLines_any_true id name p pos r children l hany
      rw [hshape, linesOf_render _ (by rw [← hshape]; exact hb.2.1)]
      rfl
    | false =>
      have hshape := @hierLines_any_false id name p pos r children l hany
      rw [hshape, linesOf_render _ (by rw [← hshape]; exact hb.2.1)]
      rfl
  · intro hn
    rcases hn with rfl | rfl
    · rfl
    · simp [jsNameOr]
  · intro s hs hne
    subst hs
    simp [jsNameOr, hne]

theorem c9_name_fallback_witness :
    (linesOfS (buildBVHHierarchy (.bone 7 (some "") ParentRef.null ⟨0, 0, 0⟩ ⟨0, 0, 0⟩ []) 0)).head?
      = some (strRepeat "  " 0 ++ "JOINT " ++ jsNameOr (some "") ("Bone_" ++ natToStr 7))
    ∧ jsNameOr (some "") ("Bone_" ++ natToStr 7) = "Bone_" ++ natToStr 7 :=
  ⟨(c9_name_fallback 7 (some "") ParentRef.null ⟨0, 0, 0⟩ ⟨0, 0, 0⟩ [] 0 (by decide)).1,
   (c9_name_fallback 7 (some "") ParentRef.null ⟨0, 0, 0⟩ ⟨0, 0, 0⟩ [] 0 (by decide)).2.1
     (Or.inr rfl)⟩

/-- C10: the hierarchy section has one joint header per bone reachable from
the selected root through bone-typed child links, while the motion line
has one 6-value group per bone of the bone set; under the scene-graph
invariants (reachable bones belong to the set, distinct bones have
distinct ids), if some bone of the set is unreachable from the root then
the number of joints is strictly smaller than the number of motion
groups. -/
theorem c10_unreachable_bones (bones : List BNode) (h : bones ≠ [])
    (hg : ∀ b ∈ bones, goodNames b = true) (d : String)
    (hd : exportToBVH bones = some d)
    (hclosed : ∀ b ∈ dfsBones (rootBoneOf bones), b.id ∈ idsOf bones)
    (hnodup : (idsOf (dfsBones (rootBoneOf bones))).Nodup)
    (hmiss : ∃ b ∈ bones, ¬(b.id ∈ idsOf (dfsBones (rootBoneOf bones)))) :
    countJointLines (linesOfS d) = (dfsBones (rootBoneOf bones)).length
    ∧ (wsTokens (buildBVHMotion bones)).length = 6 * bones.length
    ∧ 6 * countJointLines (linesOfS d) < (wsTokens (buildBVHMotion bones)).length := by
  have hH : (isPrefixL "JOINT ".data (stripSpaces "HIERARCHY").data ||
      isPrefixL "ROOT ".data (stripSpaces "HIERARCHY").data) = false := by decide
  have hM : (isPrefixL "JOINT ".data (stripSpaces "MOTION").data ||
      isPrefixL "ROOT ".data (stripSpaces "MOTION").data) = false := by decide
  have hF1 : (isPrefixL "JOINT ".data (stripSpaces "Frames: 1").data ||
      isPrefixL "ROOT ".data (stripSpaces "Frames: 1").data) = false := by decide
  have hF2 : (isPrefixL "JOINT ".data (stripSpaces "Frame Time: 0.033333").data ||
      isPrefixL "ROOT ".data (stripSpaces "Frame Time: 0.033333").data) = false := by decide
  have hEm : (isPrefixL "JOINT ".data (stripSpaces "").data ||
      isPrefixL "ROOT ".data (stripSpaces "").data) = false := by decide
  have hcount : countJointLines (linesOfS d) = (dfsBones (rootBoneOf bones)).length := by
    rw [export_lines bones h hg d hd]
    unfold countJointLines
    simp only [List.filter_cons, List.filter_append, List.filter_nil,
      hH, hM, hF1, hF2, hEm, motion_no_joint bones, if_true, if_false]
    simp only [Bool.false_eq_true, if_false, List.append_nil]
    exact countJoint_hier (rootBoneOf bones) 0
  have htok := motion_token_count bones
  refine ⟨hcount, htok, ?_⟩
  rw [hcount, htok]
  have hlt : (dfsBones (rootBoneOf bones)).length < bones.length := by
    obtain ⟨bx, hbx, hbxn⟩ := hmiss
    have hsub : ∀ i ∈ idsOf (dfsBones (rootBoneOf bones)), i ∈ idsOf bones := by
      intro i hi
      unfold idsOf at hi
      obtain ⟨b, hb, rfl⟩ := List.mem_map.mp hi
      exact hclosed b hb
    have hxY : bx.id ∈ idsOf bones := by
      unfold idsOf
      exact List.mem_map_of_mem _ hbx
    have h1 : (idsOf (dfsBones (rootBoneOf bones))).toFinset
        ⊆ (idsOf bones).toFinset.erase bx.id := by
      intro i hiX
      rw [Finset.mem_erase]
      have hiX2 := List.mem_toFinset.mp hiX
      refine ⟨?_, List.mem_toFinset.mpr (hsub i hiX2)⟩
      intro heq
      exact hbxn (heq ▸ hiX2)
    have h2 : (idsOf (dfsBones (rootBoneOf bones))).toFinset.card
        ≤ ((idsOf bones).toFinset.erase bx.id).card := Finset.card_le_card h1
    have h3 : ((idsOf bones).toFinset.erase bx.id).card = (idsOf bones).toFinset.card - 1 :=
      Finset.card_erase_of_mem (List.mem_toFinset.mpr hxY)
    have h4 : (idsOf (dfsBones (rootBoneOf bones))).toFinset.card
        = (idsOf (dfsBones (rootBoneOf bones))).length := List.toFinset_card_of_nodup hnodup
    have h5 : (idsOf bones).toFinset.card ≤ (idsOf bones).length := List.toFinset_card_le _
    have h6 : 1 ≤ (idsOf bones).toFinset.card :=
      Finset.card_pos.mpr ⟨bx.id, List.mem_toFinset.mpr hxY⟩
    have h7 : (idsOf (dfsBones (rootBoneOf bones))).length
        = (dfsBones (rootBoneOf bones)).length := by
      unfold idsOf
      exact List.length_map _ _
    have h8 : (idsOf bones).length = bones.length := by
      unfold idsOf
      exact List.length_map _ _
    omega
  omega

theorem c10_unreachable_bones_witness :
    countJointLines (linesOfS "HIERARCHY\nJOINT A\n\x7b\n  OFFSET 0.000000 0.000000 0.000000\n  CHANNELS 6 Xposition Yposition Zposition Xrotation Yrotation Zrotation\n  End Site\n  \x7b\n    OFFSET 0.0 0.0 0.0\n  \x7d\n\x7d\nMOTION\nFrames: 1\nFrame Time: 0.033333\n0.000000 0.000000 0.000000 0.000000 0.000000 0.000000 0.000000 0.000000 0.000000 0.000000 0.000000 0.000000\n")
      = (dfsBones (rootBoneOf
          [BNode.bone 1 (some "A") ParentRef.null ⟨0, 0, 0⟩ ⟨0, 0, 0⟩ [],
           BNode.bone 3 (some "C") ParentRef.boneParent ⟨0, 0, 0⟩ ⟨0, 0, 0⟩ []])).length
    ∧ (wsTokens (buildBVHMotion
          [BNode.bone 1 (some "A") ParentRef.null ⟨0, 0, 0⟩ ⟨0, 0, 0⟩ [],
           BNode.bone 3 (some "C") ParentRef.boneParent ⟨0, 0, 0⟩ ⟨0, 0, 0⟩ []])).length
        = 6 * ([BNode.bone 1 (some "A") ParentRef.null ⟨0, 0, 0⟩ ⟨0, 0, 0⟩ [],
           BNode.bone 3 (some "C") ParentRef.boneParent ⟨0, 0, 0⟩ ⟨0, 0, 0⟩ []] : List BNode).length
    ∧ 6 * countJointLines (linesOfS "HIERARCHY\nJOINT A\n\x7b\n  OFFSET 0.000000 0.000000 0.000000\n  CHANNELS 6 Xposition Yposition Zposition Xrotation Yrotation Zrotation\n  End Site\n  \x7b\n    OFFSET 0.0 0.0 0.0\n  \x7d\n\x7d\nMOTION\nFrames: 1\nFrame Time: 0.033333\n0.000000 0.000000 0.000000 0.000000 0.000000 0.000000 0.000000 0.000000 0.000000 0.000000 0.000000 0.000000\n")
        < (wsTokens (buildBVHMotion
          [BNode.bone 1 (some "A") ParentRef.null ⟨0, 0, 0⟩ ⟨0, 0, 0⟩ [],
           BNode.bone 3 (some "C") ParentRef.boneParent ⟨0, 0, 0⟩ ⟨0, 0, 0⟩ []])).length :=
  c10_unreachable_bones
    [BNode.bone 1 (some "A") ParentRef.null ⟨0, 0, 0⟩ ⟨0, 0, 0⟩ [],
     BNode.bone 3 (some "C") ParentRef.boneParent ⟨0, 0, 0⟩ ⟨0, 0, 0⟩ []]
    (by simp) (by decide)
    "HIERARCHY\nJOINT A\n\x7b\n  OFFSET 0.000000 0.000000 0.000000\n  CHANNELS 6 Xposition Yposition Zposition Xrotation Yrotation Zrotation\n  End Site\n  \x7b\n    OFFSET 0.0 0.0 0.0\n  \x7d\n\x7d\nMOTION\nFrames: 1\nFrame Time: 0.033333\n0.000000 0.000000 0.000000 0.000000 0.000000 0.000000 0.000000 0.000000 0.000000 0.000000 0.000000 0.000000\n"
    (by decide) (by decide) (by decide) (by decide)
